import Mathlib

/-!
Shallow embedding of the B+ tree implementation (node.py, bplustree.py).

Nodes live in an arena (a list indexed by node id); the Python object
references parent, prev and next become Option Nat ids.  Python exceptions
are modelled by an Except monad: the three custom exceptions of
exceptions.py get their own constructors, every other runtime error
(IndexError, AttributeError, UnboundLocalError, ...) is modelled as crash.
Unbounded while loops of the source get an explicit fuel argument; the
canonical fuel (arena size + 1) dominates every terminating run, and fuel
exhaustion (a cyclic parent or child chain, impossible for trees built by
the public operations) is reported as crash.
-/

namespace BPlus

/-- A slot of Node.values.  Internal nodes store child references; a leaf
stores one payload per key.  Node.add wraps the inserted key in a singleton
list (pay), while bulk_load stores the bare integer (raw), exactly as the
source does. -/
inductive Slot where
  | child : Nat → Slot
  | pay : List Int → Slot
  | raw : Int → Slot
deriving DecidableEq, Repr

/-- Mirror of the Node class of node.py. -/
structure Node where
  order : Nat
  leaf : Bool
  keys : List Int
  values : List Slot
  parent : Option Nat := none
  prev : Option Nat := none
  next : Option Nat := none
deriving DecidableEq, Repr

/-- Mirror of the BPlusTree class of bplustree.py: the order plus the arena
of nodes and the id of the root. -/
structure BPlusTree where
  order : Nat
  nodes : List Node
  root : Nat
deriving DecidableEq, Repr

/-- Errors: the three exceptions of exceptions.py, plus crash for any other
Python runtime error (IndexError, AttributeError, UnboundLocalError). -/
inductive Err where
  | rotateError
  | leftRedistributeError
  | removeError
  | crash
deriving DecidableEq, Repr

/-- Computation that may raise. -/
abbrev M (α : Type) := Except Err α

/-- Dereference a Python object reference: none (or a dangling id) is an
AttributeError / invalid access, modelled as crash. -/
def need : Option α → M α
  | some a => .ok a
  | none => .error .crash

/-- Fetch the node with the given id. -/
def getN (t : BPlusTree) (i : Nat) : Option Node := t.nodes[i]?

/-- Overwrite the node with the given id (mutation of a Python object). -/
def setN (t : BPlusTree) (i : Nat) (nd : Node) : BPlusTree :=
  { t with nodes := t.nodes.set i nd }

/-- Allocate a fresh node, returning its id. -/
def alloc (t : BPlusTree) (nd : Node) : BPlusTree × Nat :=
  ({ t with nodes := t.nodes ++ [nd] }, t.nodes.length)

/-- math.ceil(order / 2). -/
def ceilHalf (m : Nat) : Nat := (m + 1) / 2

/-- Node.is_underflow: len(keys) < ceil(order/2). -/
def is_underflow (nd : Node) : Bool := decide (nd.keys.length < ceilHalf nd.order)

/-- Node.is_overflow: len(keys) > order. -/
def is_overflow (nd : Node) : Bool := decide (nd.order < nd.keys.length)

/-- Python slice insertion l[:i] + [x] + l[i:]. -/
def insAt (l : List α) (i : Nat) (x : α) : List α := l.take i ++ [x] ++ l.drop i

/-- Python list.pop(i) for a nonnegative index; out of range is IndexError. -/
def popAt (l : List α) (i : Nat) : M (α × List α) :=
  match l[i]? with
  | some x => .ok (x, l.take i ++ l.drop (i + 1))
  | none => .error .crash

/-- Python list.pop(i) with negative indices counting from the end. -/
def popAtI (l : List α) (i : Int) : M (α × List α) :=
  if i < 0 then
    let j := i + l.length
    if j < 0 then .error .crash else popAt l j.toNat
  else popAt l i.toNat

/-- Outcome of the insertion scan of Node.add over the keys. -/
inductive AddRes where
  | dup
  | insPos (i : Nat)
  | app
deriving DecidableEq, Repr

/-- The loop of Node.add: at each key, equal means duplicate, smaller means
insert here, otherwise continue; falling through appends at the end. -/
def addScan (d : Int) : List Int → Nat → AddRes
  | [], _ => .app
  | k :: ks, i =>
    if d = k then .dup
    else if d < k then .insPos i
    else addScan d ks (i + 1)

/-- Node.add: insert a key and its singleton payload into a leaf, silently
doing nothing on a duplicate (the source prints a message and returns). -/
def Node.add (nd : Node) (d : Int) : Node :=
  if nd.keys.isEmpty then
    { nd with keys := nd.keys ++ [d], values := nd.values ++ [.pay [d]] }
  else
    match addScan d nd.keys 0 with
    | .dup => nd
    | .insPos i =>
        { nd with keys := insAt nd.keys i d, values := insAt nd.values i (.pay [d]) }
    | .app => { nd with keys := nd.keys ++ [d], values := nd.values ++ [.pay [d]] }

/-- Node.remove: delete a key and payload from a leaf.  A missing key is the
RemoveError path (the source prints a not-found message first).  Returns the
mutated node together with (parent, old minimum, new minimum). -/
def Node.remove (nd : Node) (d : Int) : M (Node × Option Nat × Int × Int) :=
  match nd.keys.findIdx? (fun k => k == d) with
  | none => .error .removeError
  | some idx =>
    match nd.keys[0]? with
    | none => .error .crash
    | some oldMin =>
      match popAt nd.values idx with
      | .error e => .error e
      | .ok (_, values2) =>
        let keys2 := nd.keys.take idx ++ nd.keys.drop (idx + 1)
        let newMin := match keys2[0]? with
          | some x => x
          | none => oldMin
        .ok ({ nd with keys := keys2, values := values2 }, nd.parent, oldMin, newMin)

/-- Set the parent reference of every child slot in the list (the reparent
loops of split, merge and redistribute).  A non-child slot has no parent
attribute in Python: crash. -/
def reparentAll (t : BPlusTree) (slots : List Slot) (p : Nat) : M BPlusTree :=
  match slots with
  | [] => .ok t
  | .child c :: rest =>
    match getN t c with
    | some cnd => reparentAll (setN t c { cnd with parent := some p }) rest p
    | none => .error .crash
  | _ :: _ => .error .crash

/-- Descent loop of BPlusTree._search_min_key_in_subtree: follow values[0]
until a leaf, then return keys[0]. -/
def search_min_key_loop (t : BPlusTree) : Nat → Nat → M Int
  | _, 0 => .error .crash
  | i, fuel + 1 =>
    match getN t i with
    | none => .error .crash
    | some nd =>
      if nd.leaf then need nd.keys[0]?
      else
        match nd.values[0]? with
        | some (Slot.child c) => search_min_key_loop t c fuel
        | _ => .error .crash

/-- BPlusTree._search_min_key_in_subtree: a list payload answers its first
element; a bare integer (bulk_load payload) fails the isinstance(list) test
and then crashes on the missing leaf attribute; a node reference descends
along values[0]. -/
def search_min_key_in_subtree (t : BPlusTree) (s : Slot) : M Int :=
  match s with
  | .pay xs => need xs[0]?
  | .raw _ => .error .crash
  | .child i => search_min_key_loop t i (t.nodes.length + 1)

/-- BPlusTree._search_position_in_child: first key strictly greater than the
data selects the child left of it, otherwise the rightmost child.  On a node
with no keys the loop variable is never bound (UnboundLocalError): crash. -/
def search_position_in_child (nd : Node) (d : Int) : M (Slot × Nat) :=
  match nd.keys.findIdx? (fun k => decide (d < k)) with
  | some i =>
    match nd.values[i]? with
    | some s => .ok (s, i)
    | none => .error .crash
  | none =>
    if nd.keys.isEmpty then .error .crash
    else
      match nd.values[nd.keys.length]? with
      | some s => .ok (s, nd.keys.length)
      | none => .error .crash

/-- Node.split: partition the overflowing node into fresh left and right
nodes, push or copy the middle key up, repurpose the node itself as the new
one-key parent and relink the level chain (Node._update_doubly_linked_list). -/
def split (t : BPlusTree) (i : Nat) : M BPlusTree := do
  let nd ← need (getN t i)
  let kmid := ceilHalf nd.order
  let vmid := if nd.leaf then kmid else kmid + 1
  let leftN : Node :=
    { order := nd.order, leaf := nd.leaf, keys := nd.keys.take kmid,
      values := nd.values.take vmid, parent := some i }
  let rightN : Node :=
    { order := nd.order, leaf := nd.leaf, keys := nd.keys.drop kmid,
      values := nd.values.drop vmid, parent := some i }
  let (t, lId) := alloc t leftN
  let (t, rId) := alloc t rightN
  let t ←
    if nd.leaf then pure t
    else do
      let t ← reparentAll t leftN.values lId
      reparentAll t rightN.values rId
  let selfKey ← need rightN.keys[0]?
  let t ←
    if nd.leaf then pure t
    else do
      let rnd ← need (getN t rId)
      pure (setN t rId { rnd with keys := rnd.keys.drop 1 })
  let ndNow ← need (getN t i)
  let t := setN t i
    { ndNow with keys := [selfKey], values := [Slot.child lId, .child rId], leaf := false }
  let lnd ← need (getN t lId)
  let t := setN t lId { lnd with prev := ndNow.prev, next := some rId }
  let rnd ← need (getN t rId)
  let t := setN t rId { rnd with next := ndNow.next, prev := some lId }
  let t ←
    match ndNow.prev with
    | some p => do
      let pnd ← need (getN t p)
      pure (setN t p { pnd with next := some lId })
    | none => pure t
  match ndNow.next with
  | some q => do
    let qnd ← need (getN t q)
    pure (setN t q { qnd with prev := some rId })
  | none => pure t

/-- BPlusTree._merge_into_parent: splice the single key of a just-split node
and its two children into the grandparent, replacing the popped slot idx. -/
def merge_into_parent (t : BPlusTree) (i : Nat) (idx : Int) : M BPlusTree := do
  let nd ← need (getN t i)
  let p ← need nd.parent
  let pnd ← need (getN t p)
  let (_, pvals) ← popAtI pnd.values idx
  let t := setN t p { pnd with values := pvals }
  let ndNow ← need (getN t i)
  let t ← reparentAll t ndNow.values p
  let ndNow2 ← need (getN t i)
  let pivot ← need ndNow2.keys[0]?
  let pnd2 ← need (getN t p)
  match pnd2.keys.findIdx? (fun k => decide (pivot < k)) with
  | some j =>
    pure (setN t p
      { pnd2 with
        keys := insAt pnd2.keys j pivot,
        values := pnd2.values.take j ++ ndNow2.values ++ pnd2.values.drop j })
  | none =>
    pure (setN t p
      { pnd2 with
        keys := pnd2.keys ++ [pivot],
        values := pnd2.values ++ ndNow2.values })

/-- BPlusTree._left_rotate: move the leftmost child of the node into the
left sibling, the appended key being the minimum key of the moved subtree;
return (node.parent, old minimum, new minimum) for propagation. -/
def left_rotate (t : BPlusTree) (i : Nat) : M (BPlusTree × Option Nat × Int × Int) := do
  let nd ← need (getN t i)
  let ls ← need nd.prev
  let s0 ← need nd.values[0]?
  let s1 ← need nd.values[1]?
  let oldMin ← search_min_key_in_subtree t s0
  let newMin ← search_min_key_in_subtree t s1
  let lnd ← need (getN t ls)
  let t := setN t ls { lnd with keys := lnd.keys ++ [oldMin], values := lnd.values ++ [s0] }
  let ndNow ← need (getN t i)
  let keys2 ← match ndNow.keys with
    | [] => .error .crash
    | _ :: ks => .ok ks
  let values2 ← match ndNow.values with
    | [] => .error .crash
    | _ :: vs => .ok vs
  let t := setN t i { ndNow with keys := keys2, values := values2 }
  let lnd2 ← need (getN t ls)
  let t ←
    if lnd2.leaf then pure t
    else
      match lnd2.values.getLast? with
      | some (Slot.child c) => do
        let cnd ← need (getN t c)
        pure (setN t c { cnd with parent := some ls })
      | _ => .error .crash
  let ndFin ← need (getN t i)
  .ok (t, ndFin.parent, oldMin, newMin)

/-- BPlusTree._right_rotate: move the rightmost child of the node to the
front of the right sibling; for a leaf the inserted key is the moved key
itself, for an internal node it is the old minimum of the right sibling;
return (right_sibling.parent, old minimum, new minimum). -/
def right_rotate (t : BPlusTree) (i : Nat) : M (BPlusTree × Option Nat × Int × Int) := do
  let nd ← need (getN t i)
  let rs ← need nd.next
  let rnd ← need (getN t rs)
  let rv0 ← need rnd.values[0]?
  let oldMin ← search_min_key_in_subtree t rv0
  let vlast ← need nd.values.getLast?
  let newMin ← search_min_key_in_subtree t vlast
  let insKey := if nd.leaf then newMin else oldMin
  let rnd2 ← need (getN t rs)
  let t := setN t rs { rnd2 with keys := insKey :: rnd2.keys, values := vlast :: rnd2.values }
  let ndNow ← need (getN t i)
  let keys2 ← if ndNow.keys.isEmpty then .error .crash else .ok ndNow.keys.dropLast
  let values2 ← if ndNow.values.isEmpty then .error .crash else .ok ndNow.values.dropLast
  let t := setN t i { ndNow with keys := keys2, values := values2 }
  let rnd3 ← need (getN t rs)
  let t ←
    if rnd3.leaf then pure t
    else
      match rnd3.values[0]? with
      | some (Slot.child c) => do
        let cnd ← need (getN t c)
        pure (setN t c { cnd with parent := some rs })
      | _ => .error .crash
  let rndFin ← need (getN t rs)
  .ok (t, rndFin.parent, oldMin, newMin)

/-- BPlusTree._rotate: prefer the left sibling when it has spare capacity,
then the right; otherwise RotateError. -/
def rotate (t : BPlusTree) (i : Nat) : M (BPlusTree × Option Nat × Int × Int) := do
  let nd ← need (getN t i)
  let goLeft ←
    match nd.prev with
    | some p => do
      let pnd ← need (getN t p)
      pure (decide (pnd.keys.length < t.order))
    | none => pure false
  if goLeft then left_rotate t i
  else do
    let goRight ←
      match nd.next with
      | some q => do
        let qnd ← need (getN t q)
        pure (decide (qnd.keys.length < t.order))
      | none => pure false
    if goRight then right_rotate t i
    else .error .rotateError

/-- BPlusTree._left_redistribute: borrow the rightmost child of the left
sibling when it is above minimum occupancy (a mirrored rotate), otherwise
merge the whole node into the left sibling, drop the vacated slot from the
parent and relink the level chain around the vacated node. -/
def left_redistribute (t : BPlusTree) (i : Nat) (idx : Nat) :
    M (BPlusTree × Option Nat × Int × Int) := do
  let nd ← need (getN t i)
  match nd.prev with
  | none => .error .leftRedistributeError
  | some ls => do
    let lnd ← need (getN t ls)
    if decide (ceilHalf t.order < lnd.keys.length) then right_rotate t ls
    else if decide (t.order < nd.keys.length + lnd.keys.length) then
      .error .leftRedistributeError
    else do
      let s0 ← need nd.values[0]?
      let oldMin ← search_min_key_in_subtree t s0
      let newMin ←
        if idx = 0 then do
          let nx ← need nd.next
          let xnd ← need (getN t nx)
          let xs0 ← need xnd.values[0]?
          search_min_key_in_subtree t xs0
        else pure oldMin
      let mergedKeys := if nd.leaf then nd.keys else oldMin :: nd.keys
      let lnd2 ← need (getN t ls)
      let t := setN t ls
        { lnd2 with keys := lnd2.keys ++ mergedKeys, values := lnd2.values ++ nd.values }
      let keyIdx := if idx = 0 then idx else idx - 1
      let p ← need nd.parent
      let pnd ← need (getN t p)
      let (_, pkeys) ← popAt pnd.keys keyIdx
      let t := setN t p { pnd with keys := pkeys }
      let pnd2 ← need (getN t p)
      let (_, pvals) ← popAt pnd2.values idx
      let t := setN t p { pnd2 with values := pvals }
      let t ←
        if nd.leaf then pure t
        else do
          let lnd3 ← need (getN t ls)
          reparentAll t lnd3.values ls
      let lnd4 ← need (getN t ls)
      let t := setN t ls { lnd4 with next := nd.next }
      let t ←
        match nd.next with
        | some nx => do
          let xnd ← need (getN t nx)
          pure (setN t nx { xnd with prev := some ls })
        | none => pure t
      let ndFin ← need (getN t i)
      .ok (t, ndFin.parent, oldMin, newMin)

/-- BPlusTree._right_redistribute: borrow the leftmost child of the right
sibling when it is above minimum occupancy, otherwise merge the whole node
into the right sibling, pop slot 0 of the parent and cut the prev link of
the right sibling; returns the dummy triple (None, -1, -1). -/
def right_redistribute (t : BPlusTree) (i : Nat) :
    M (BPlusTree × Option Nat × Int × Int) := do
  let nd ← need (getN t i)
  let rs ← need nd.next
  let rnd ← need (getN t rs)
  if decide (ceilHalf t.order < rnd.keys.length) then left_rotate t rs
  else do
    let rv0 ← need rnd.values[0]?
    let newMin ← search_min_key_in_subtree t rv0
    let mergedKeys := if nd.leaf then nd.keys else nd.keys ++ [newMin]
    let rnd2 ← need (getN t rs)
    let t := setN t rs
      { rnd2 with keys := mergedKeys ++ rnd2.keys, values := nd.values ++ rnd2.values }
    let p ← need nd.parent
    let pnd ← need (getN t p)
    let (_, pkeys) ← popAt pnd.keys 0
    let t := setN t p { pnd with keys := pkeys }
    let pnd2 ← need (getN t p)
    let (_, pvals) ← popAt pnd2.values 0
    let t := setN t p { pnd2 with values := pvals }
    let t ←
      if nd.leaf then pure t
      else do
        let rnd3 ← need (getN t rs)
        reparentAll t rnd3.values rs
    let rnd4 ← need (getN t rs)
    let t := setN t rs { rnd4 with prev := none }
    .ok (t, none, -1, -1)

/-- BPlusTree._update_parents: walk the parent chain replacing the first
occurrence of the old minimum key by the new one at every level. -/
def update_parents (t : BPlusTree) : Option Nat → Int → Int → Nat → M BPlusTree
  | none, _, _, _ => .ok t
  | some _, _, _, 0 => .error .crash
  | some i, oldMin, newMin, fuel + 1 =>
    match getN t i with
    | none => .error .crash
    | some nd =>
      let keys2 := match nd.keys.findIdx? (fun k => k == oldMin) with
        | some j => nd.keys.set j newMin
        | none => nd.keys
      update_parents (setN t i { nd with keys := keys2 }) nd.parent oldMin newMin fuel

/-- Root-to-leaf descent shared by insert, delete and find, recording the
child index chosen at every internal level. -/
def descend (t : BPlusTree) (d : Int) : Nat → List Nat → Nat → M (Nat × List Nat)
  | _, _, 0 => .error .crash
  | i, path, fuel + 1 =>
    match getN t i with
    | none => .error .crash
    | some nd =>
      if nd.leaf then .ok (i, path)
      else
        match search_position_in_child nd d with
        | .error e => .error e
        | .ok (Slot.child c, idx) => descend t d c (path ++ [idx]) fuel
        | .ok (_, _) => .error .crash

/-- Bottom-up repair loop of BPlusTree.insert: while the current node
overflows, try a rotation (which propagates and returns), otherwise split
and splice into the parent at the recorded descent index, then ascend. -/
def insertRepair (t : BPlusTree) : Option Nat → List Nat → Nat → M BPlusTree
  | none, _, _ => .ok t
  | some _, _, 0 => .error .crash
  | some i, path, fuel + 1 =>
    match getN t i with
    | none => .error .crash
    | some nd =>
      if is_overflow nd then
        match rotate t i with
        | .ok (t2, base, oldMin, newMin) =>
          update_parents t2 base oldMin newMin (t2.nodes.length + 1)
        | .error .rotateError =>
          match split t i with
          | .error e => .error e
          | .ok t2 =>
            match getN t2 i with
            | none => .error .crash
            | some nd2 =>
              match nd2.parent with
              | some _ =>
                match path.getLast? with
                | none => .error .crash
                | some idx =>
                  match merge_into_parent t2 i (Int.ofNat idx) with
                  | .error e => .error e
                  | .ok t3 =>
                    match getN t3 i with
                    | none => .error .crash
                    | some nd3 => insertRepair t3 nd3.parent path.dropLast fuel
              | none =>
                match getN t2 i with
                | none => .error .crash
                | some nd3 => insertRepair t2 nd3.parent path fuel
        | .error e => .error e
      else .ok t

/-- BPlusTree.insert: descend to the target leaf, call Node.add, then run
the overflow repair loop. -/
def insert (t : BPlusTree) (d : Int) : M BPlusTree := do
  let (leafId, path) ← descend t d t.root [] (t.nodes.length + 1)
  let lnd ← need (getN t leafId)
  let t := setN t leafId (lnd.add d)
  insertRepair t (some leafId) path (t.nodes.length + 1)

/-- Outcome of a deletion: deleted on success, notFound for the RemoveError
path (the source prints a not-found message, catches the exception and
returns without mutating the tree). -/
inductive DeleteResult where
  | deleted
  | notFound
deriving DecidableEq, Repr

/-- Bottom-up repair loop of BPlusTree.delete: while the current node is a
non-root underflowing node, left-redistribute (falling back to
right-redistribute on LeftRedistributeError), propagate and ascend. -/
def deleteRepair (t : BPlusTree) : Option Nat → List Nat → Nat → M BPlusTree
  | none, _, _ => .ok t
  | some _, _, 0 => .error .crash
  | some i, path, fuel + 1 =>
    match getN t i with
    | none => .error .crash
    | some nd =>
      if nd.parent.isSome && is_underflow nd then
        match path.getLast? with
        | none => .error .crash
        | some idx =>
          let step : M (BPlusTree × Option Nat × Int × Int) :=
            match left_redistribute t i idx with
            | .error .leftRedistributeError => right_redistribute t i
            | r => r
          match step with
          | .error e => .error e
          | .ok (t2, base, oldMin, newMin) =>
            match update_parents t2 base oldMin newMin (t2.nodes.length + 1) with
            | .error e => .error e
            | .ok t3 =>
              match getN t3 i with
              | none => .error .crash
              | some nd2 => deleteRepair t3 nd2.parent path.dropLast fuel
      else .ok t

/-- BPlusTree.delete: descend, remove from the leaf (NotFound returns the
tree unchanged), propagate the minimum change, run the underflow repair
loop and finally collapse an internal root left with at most one child. -/
def delete (t : BPlusTree) (d : Int) : M (BPlusTree × DeleteResult) := do
  let (leafId, path) ← descend t d t.root [] (t.nodes.length + 1)
  let lnd ← need (getN t leafId)
  match lnd.remove d with
  | .error .removeError => .ok (t, .notFound)
  | .error e => .error e
  | .ok (lnd2, base, oldMin, newMin) => do
    let t := setN t leafId lnd2
    let t ← update_parents t base oldMin newMin (t.nodes.length + 1)
    let t ← deleteRepair t (some leafId) path (t.nodes.length + 1)
    let rnd ← need (getN t t.root)
    if rnd.leaf then .ok (t, .deleted)
    else if decide (rnd.values.length ≤ 1) then
      match rnd.values[0]? with
      | some (Slot.child c) => do
        let cnd ← need (getN t c)
        .ok ({ setN t c { cnd with parent := none } with root := c }, .deleted)
      | _ => .error .crash
    else .ok (t, .deleted)

/-- Outcome of BPlusTree.find, mirroring the two printed messages. -/
inductive FindResult where
  | found
  | notFound
deriving DecidableEq, Repr

/-- BPlusTree.find: descend to the leaf for the key, then linear scan. -/
def find (t : BPlusTree) (d : Int) : M FindResult := do
  let (leafId, _) ← descend t d t.root [] (t.nodes.length + 1)
  let lnd ← need (getN t leafId)
  .ok (if lnd.keys.contains d then .found else .notFound)

/-- Insert into a sorted list, keeping order. -/
def insSorted (x : Int) : List Int → List Int
  | [] => [x]
  | y :: ys => if x ≤ y then x :: y :: ys else y :: insSorted x ys

/-- Python sorted on integers: ascending order.  On integer keys the sorted
list is determined by the multiset alone, so the choice of a structurally
recursive insertion sort is observationally identical to the library sort
of the source. -/
def sortInts : List Int → List Int
  | [] => []
  | x :: xs => insSorted x (sortInts xs)

/-- Successive order-sized chunks of a list (BPlusTree._chunks); a zero
chunk size is a ValueError in range: crash. -/
def chunksGo : Nat → List Int → Nat → List (List Int)
  | 0, _, _ => []
  | _, [], _ => []
  | fuel + 1, l, n => l.take n :: chunksGo fuel (l.drop n) n

/-- Chunk a list, crashing on chunk size zero. -/
def chunks (l : List Int) (n : Nat) : M (List (List Int)) :=
  if n = 0 then .error .crash else .ok (chunksGo (l.length + 1) l n)

/-- Inner overflow loop of BPlusTree.bulk_load: split the accumulation node
while it overflows, splice into the parent at index -1, and after the first
split redirect the accumulation target to the right child. -/
def bulkSplitLoop (t : BPlusTree) : Option Nat → Nat → Bool → Nat → M (BPlusTree × Nat)
  | none, lastParent, _, _ => .ok (t, lastParent)
  | some _, _, _, 0 => .error .crash
  | some c, lastParent, firstSplit, fuel + 1 =>
    match getN t c with
    | none => .error .crash
    | some nd =>
      if is_overflow nd then
        match split t c with
        | .error e => .error e
        | .ok t2 =>
          let merged : M BPlusTree :=
            match getN t2 c with
            | none => .error .crash
            | some nd2 =>
              match nd2.parent with
              | some _ => merge_into_parent t2 c (-1)
              | none => .ok t2
          match merged with
          | .error e => .error e
          | .ok t3 =>
            let updated : M (Nat × Bool) :=
              if firstSplit then .ok (lastParent, true)
              else
                match getN t3 lastParent with
                | none => .error .crash
                | some lp =>
                  match lp.values[1]? with
                  | some (Slot.child c2) => .ok (c2, true)
                  | _ => .error .crash
            match updated with
            | .error e => .error e
            | .ok (lastParent2, firstSplit2) =>
              match getN t3 c with
              | none => .error .crash
              | some nd3 => bulkSplitLoop t3 nd3.parent lastParent2 firstSplit2 fuel
      else .ok (t, lastParent)

/-- Per-bucket body of BPlusTree.bulk_load: create a leaf holding the bucket
(bare integers as payloads), link it into the leaf chain, append its minimum
key (except for the first bucket) and the leaf itself to the open internal
node, then run the overflow loop. -/
def bulkBuckets (t : BPlusTree) :
    List (List Int) → Nat → Nat → Option Nat → M BPlusTree
  | [], _, _, _ => .ok t
  | bucket :: rest, i, lastParent, leftSibling => do
    let (t, currId) := alloc t
      { order := t.order, leaf := true, keys := bucket,
        values := bucket.map Slot.raw, parent := some lastParent }
    let t ←
      match leftSibling with
      | some ls => do
        let lnd ← need (getN t ls)
        pure (setN t ls { lnd with next := some currId })
      | none => pure t
    let cnd ← need (getN t currId)
    let t := setN t currId { cnd with prev := leftSibling }
    let t ←
      if i ≠ 0 then do
        let b0 ← need bucket[0]?
        let lp ← need (getN t lastParent)
        pure (setN t lastParent { lp with keys := lp.keys ++ [b0] })
      else pure t
    let lp2 ← need (getN t lastParent)
    let t := setN t lastParent { lp2 with values := lp2.values ++ [Slot.child currId] }
    let (t, lastParent2) ← bulkSplitLoop t (some lastParent) lastParent false (t.nodes.length + 1)
    bulkBuckets t rest (i + 1) lastParent2 (some currId)

/-- BPlusTree.bulk_load: mark the root internal, then feed the sorted keys
bucket by bucket.  No emptiness precondition is checked by the source. -/
def bulk_load (t : BPlusTree) (values : List Int) : M BPlusTree := do
  let rnd ← need (getN t t.root)
  let t := setN t t.root { rnd with leaf := false }
  let bks ← chunks (sortInts values) t.order
  bulkBuckets t bks 0 t.root none

/-- BPlusTree.__init__: a single empty leaf root. -/
def newTree (order : Nat) : BPlusTree :=
  { order := order,
    nodes := [{ order := order, leaf := true, keys := [], values := [] }],
    root := 0 }

/-- A public mutating operation applied in a trace. -/
inductive Op where
  | ins (k : Int)
  | del (k : Int)
deriving DecidableEq, Repr

/-- Run a trace of public operations from a given tree. -/
def runOps (t : BPlusTree) : List Op → M BPlusTree
  | [] => .ok t
  | .ins k :: rest =>
    match insert t k with
    | .ok t2 => runOps t2 rest
    | .error e => .error e
  | .del k :: rest =>
    match delete t k with
    | .ok (t2, _) => runOps t2 rest
    | .error e => .error e

/-- Ids of the nodes of the subtree below a node id, preorder. -/
def collectSubtree (t : BPlusTree) : Nat → Nat → List Nat
  | 0, _ => []
  | fuel + 1, i =>
    i ::
      match getN t i with
      | some nd =>
        if nd.leaf then []
        else
          (nd.values.map fun s =>
            match s with
            | .child c => collectSubtree t fuel c
            | _ => []).flatten
      | none => []

/-- Occupancy invariant of the specification: every non-root node of the
tree holds between ceil(order/2) and order keys. -/
def occupancyOK (t : BPlusTree) : Bool :=
  (collectSubtree t (t.nodes.length + 1) t.root).all fun i =>
    i == t.root ||
      match getN t i with
      | some nd => decide (ceilHalf t.order ≤ nd.keys.length ∧ nd.keys.length ≤ t.order)
      | none => false

/-- All keys stored at the leaf level of the tree. -/
def treeKeys (t : BPlusTree) : List Int :=
  ((collectSubtree t (t.nodes.length + 1) t.root).map fun i =>
    match getN t i with
    | some nd => if nd.leaf then nd.keys else []
    | none => []).flatten

/-- Observe the result of a successful run through a projection. -/
def afterOk (m : M BPlusTree) (f : BPlusTree → α) : Option α :=
  match m with
  | .ok t => some (f t)
  | .error _ => none

/-!
Theorems.  Each claim of the specification audit gets one theorem below;
auxiliary lemmas are shared.  The traces used in the code-bug theorems were
found by exploring the source behaviour and are evaluated here inside the
embedding, so the kernel itself checks what the code does on them.
-/

/-- Hand-built order-2 tree whose internal node 2 (keys 6, 8, 10) overflows,
with left sibling 1 (keys 2) under the common root 0 (separator 4).  All
invariants of the source hold before the repair. -/
def c8state : BPlusTree :=
  { order := 2, root := 0, nodes :=
    [ { order := 2, leaf := false, keys := [4], values := [Slot.child 1, Slot.child 2],
        parent := none, prev := none, next := none },
      { order := 2, leaf := false, keys := [2], values := [Slot.child 3, Slot.child 4],
        parent := some 0, prev := none, next := some 2 },
      { order := 2, leaf := false, keys := [6, 8, 10],
        values := [Slot.child 5, Slot.child 6, Slot.child 7, Slot.child 8],
        parent := some 0, prev := some 1, next := none },
      { order := 2, leaf := true, keys := [1], values := [Slot.pay [1]],
        parent := some 1, prev := none, next := some 4 },
      { order := 2, leaf := true, keys := [2], values := [Slot.pay [2]],
        parent := some 1, prev := some 3, next := some 5 },
      { order := 2, leaf := true, keys := [4], values := [Slot.pay [4]],
        parent := some 2, prev := some 4, next := some 6 },
      { order := 2, leaf := true, keys := [6], values := [Slot.pay [6]],
        parent := some 2, prev := some 5, next := some 7 },
      { order := 2, leaf := true, keys := [8], values := [Slot.pay [8]],
        parent := some 2, prev := some 6, next := some 8 },
      { order := 2, leaf := true, keys := [10], values := [Slot.pay [10]],
        parent := some 2, prev := some 7, next := none } ] }

/-- The overflowing internal node of c8state. -/
def c8nd2 : Node :=
  { order := 2, leaf := false, keys := [6, 8, 10],
    values := [Slot.child 5, Slot.child 6, Slot.child 7, Slot.child 8],
    parent := some 0, prev := some 1, next := none }

/-- Hand-built order-4 tree whose internal node 2 (keys 50) underflows, with
left sibling 1 (keys 10, 20, 30, above minimum occupancy) under the common
root 0 (separator 40).  All invariants of the source hold before the
repair. -/
def c9state : BPlusTree :=
  { order := 4, root := 0, nodes :=
    [ { order := 4, leaf := false, keys := [40], values := [Slot.child 1, Slot.child 2],
        parent := none, prev := none, next := none },
      { order := 4, leaf := false, keys := [10, 20, 30],
        values := [Slot.child 3, Slot.child 4, Slot.child 5, Slot.child 6],
        parent := some 0, prev := none, next := some 2 },
      { order := 4, leaf := false, keys := [50], values := [Slot.child 7, Slot.child 8],
        parent := some 0, prev := some 1, next := none },
      { order := 4, leaf := true, keys := [5], values := [Slot.pay [5]],
        parent := some 1, prev := none, next := some 4 },
      { order := 4, leaf := true, keys := [10], values := [Slot.pay [10]],
        parent := some 1, prev := some 3, next := some 5 },
      { order := 4, leaf := true, keys := [20], values := [Slot.pay [20]],
        parent := some 1, prev := some 4, next := some 6 },
      { order := 4, leaf := true, keys := [30], values := [Slot.pay [30]],
        parent := some 1, prev := some 5, next := some 7 },
      { order := 4, leaf := true, keys := [40], values := [Slot.pay [40]],
        parent := some 2, prev := some 6, next := some 8 },
      { order := 4, leaf := true, keys := [50], values := [Slot.pay [50]],
        parent := some 2, prev := some 7, next := none } ] }

/-- The underflowing internal node of c9state. -/
def c9nd2 : Node :=
  { order := 4, leaf := false, keys := [50], values := [Slot.child 7, Slot.child 8],
    parent := some 0, prev := some 1, next := none }

/-- The left sibling of the underflowing node of c9state. -/
def c9nd1 : Node :=
  { order := 4, leaf := false, keys := [10, 20, 30],
    values := [Slot.child 3, Slot.child 4, Slot.child 5, Slot.child 6],
    parent := some 0, prev := none, next := some 2 }

/-- C10: on the empty tree (a single leaf root with no keys, at any order),
find reports not-found and delete reports the NotFound outcome, and both
leave the tree unchanged: delete returns the unchanged tree, and find only
reads it.  Neither descent nor removal hits an unguarded failure. -/
theorem c10_empty_tree_find_delete_safe (o : Nat) (k : Int) :
    find (newTree o) k = .ok .notFound ∧
      delete (newTree o) k = .ok (newTree o, .notFound) := by
  exact ⟨rfl, rfl⟩

/-- C2 (code bug): inserting 1..13 in order into an order-3 tree leaves a
non-root node below the minimum occupancy ceil(3/2) = 2: the split of an
overflowing internal node keeps ceil(order/2) keys on the left, pushes one
up, and leaves only floor(order/2) keys on the right, which is below the
minimum whenever the order is odd.  This contradicts the occupancy bound
stated both by the claim and by the comment of bplustree.py itself. -/
theorem c2_split_underfills_occupancy :
    afterOk
      (runOps (newTree 3)
        [.ins 1, .ins 2, .ins 3, .ins 4, .ins 5, .ins 6, .ins 7, .ins 8, .ins 9,
          .ins 10, .ins 11, .ins 12, .ins 13])
      occupancyOK = some false := by
  decide

/-- C4 (code bug): the tree built by inserting 1, 2, 3 at order 1 is
reachable by inserts alone and stores the key 3, yet find(3) crashes with
an UnboundLocalError instead of reporting found: the internal split left a
right node with zero keys, and the descent loop of
_search_position_in_child never binds its index variable on it. -/
theorem c4_find_after_insert_crashes :
    afterOk (runOps (newTree 1) [.ins 1, .ins 2, .ins 3])
      (fun t => ((treeKeys t).contains 3, find t 3))
      = some (true, Except.error Err.crash) := by
  rfl

/-- C5 (code bug): bulk_load([1]) as the first operation on an empty
order-3 tree produces an internal root with no keys and a single leaf
child, and the subsequent find(1) crashes in _search_position_in_child
(UnboundLocalError) instead of reporting found. -/
theorem c5_bulk_load_single_bucket_find_crashes :
    (do
      let t ← bulk_load (newTree 3) [1]
      find t 1 : M FindResult) = .error .crash := by
  rfl

/-- C6 (code bug): on the order-1 tree built by inserting 1, 2, 3 the key 3
is present, yet inserting 3 again raises (UnboundLocalError during the
descent through the zero-key internal node) instead of being the silent
no-op the claim describes. -/
theorem c6_duplicate_insert_crashes :
    afterOk (runOps (newTree 1) [.ins 1, .ins 2, .ins 3])
      (fun t => ((treeKeys t).contains 3, insert t 3))
      = some (true, Except.error Err.crash) := by
  rfl

/-- C7 (code bug): on the order-1 tree built by inserting 1, 2, 3 the key 5
is absent, yet delete(5) crashes during the descent instead of reporting
the recoverable NotFound outcome (the crash happens before any mutation,
so the no-mutation half of the claim is not contradicted). -/
theorem c7_delete_absent_crashes :
    afterOk (runOps (newTree 1) [.ins 1, .ins 2, .ins 3])
      (fun t => ((treeKeys t).contains 5, delete t 5))
      = some (false, Except.error Err.crash) := by
  rfl

theorem getN_setN_same {t : BPlusTree} {i : Nat} {nd0 nd : Node}
    (h : getN t i = some nd0) : getN (setN t i nd) i = some nd := by
  have hlt : i < t.nodes.length := by
    by_contra hge
    simp [getN, List.getElem?_eq_none (Nat.le_of_not_lt hge)] at h
  simp [getN, setN, List.getElem?_set_self hlt]

theorem getN_setN_ne {t : BPlusTree} {i j : Nat} {nd : Node}
    (h : i ≠ j) : getN (setN t i nd) j = getN t j := by
  simp [getN, setN, List.getElem?_set_ne h]

theorem setN_length {t : BPlusTree} {i : Nat} {nd : Node} :
    (setN t i nd).nodes.length = t.nodes.length := by
  simp [setN]

theorem getN_setN_isSome {t : BPlusTree} {i j : Nat} {nd : Node} :
    (getN (setN t i nd) j).isSome = (getN t j).isSome := by
  by_cases h : i = j
  · subst h
    cases hg : getN t i with
    | none =>
      have hge : t.nodes.length ≤ i := by
        by_contra hlt
        rw [getN, List.getElem?_eq_getElem (Nat.lt_of_not_le hlt)] at hg
        exact Option.noConfusion hg
      simp [getN, setN, List.set_eq_of_length_le, hge, hg]
    | some x => rw [getN_setN_same hg]; simp [hg]
  · rw [getN_setN_ne h]

theorem left_rotate_spec (t : BPlusTree) (i p : Nat) (nd pnd : Node)
    (s0 s1 : Slot) (srest : List Slot) (k0 : Int) (krest : List Int) (m0 m1 : Int)
    (hnd : getN t i = some nd)
    (hprev : nd.prev = some p)
    (hpnd : getN t p = some pnd)
    (hvals : nd.values = s0 :: s1 :: srest)
    (hkeys : nd.keys = k0 :: krest)
    (hm0 : search_min_key_in_subtree t s0 = .ok m0)
    (hm1 : search_min_key_in_subtree t s1 = .ok m1)
    (hpi : p ≠ i)
    (hcase : pnd.leaf = true ∨
      (pnd.leaf = false ∧ ∃ c cnd, s0 = Slot.child c ∧ c ≠ i ∧ c ≠ p ∧ getN t c = some cnd)) :
    ∃ t2, left_rotate t i = .ok (t2, nd.parent, m0, m1) ∧
      t2.nodes.length = t.nodes.length ∧
      (getN t2 p).map Node.keys = some (pnd.keys ++ [m0]) ∧
      (getN t2 p).map Node.values = some (pnd.values ++ [s0]) ∧
      (getN t2 p).map Node.parent = some pnd.parent ∧
      (getN t2 i).map Node.keys = some krest ∧
      (getN t2 i).map Node.values = some (s1 :: srest) ∧
      (getN t2 i).map Node.parent = some nd.parent := by
  have hgi : getN (setN t p { pnd with keys := pnd.keys ++ [m0], values := pnd.values ++ [s0] }) i = some nd :=
    (getN_setN_ne hpi).trans hnd
  rcases hcase with hleaf | ⟨hleaf, c, cnd, hs0, hci, hcp, hcnd⟩
  · use setN (setN t p { pnd with keys := pnd.keys ++ [m0], values := pnd.values ++ [s0] }) i
        { nd with keys := krest, values := s1 :: srest }
    refine ⟨?_, ?_, ?_, ?_, ?_, ?_, ?_, ?_⟩
    · simp only [hleaf] at hgi
      simp only [left_rotate, need, bind, Except.bind, pure, Except.pure, hnd, hprev, hpnd,
        hvals, hkeys, hm0, hm1, hleaf,
        List.getElem?_cons_zero, List.getElem?_cons_succ, hgi,
        getN_setN_same hpnd, getN_setN_ne hpi, getN_setN_ne (Ne.symm hpi), getN_setN_same hgi,
        if_true]
    · simp [setN_length]
    · rw [getN_setN_ne (Ne.symm hpi), getN_setN_same hpnd]; rfl
    · rw [getN_setN_ne (Ne.symm hpi), getN_setN_same hpnd]; rfl
    · rw [getN_setN_ne (Ne.symm hpi), getN_setN_same hpnd]; rfl
    · rw [getN_setN_same hgi]; rfl
    · rw [getN_setN_same hgi]; rfl
    · rw [getN_setN_same hgi]; rfl
  · subst hs0
    use setN
      (setN (setN t p { pnd with keys := pnd.keys ++ [m0], values := pnd.values ++ [Slot.child c] }) i
        { nd with keys := krest, values := s1 :: srest })
      c { cnd with parent := some p }
    refine ⟨?_, ?_, ?_, ?_, ?_, ?_, ?_, ?_⟩
    · simp only [hleaf] at hgi
      simp only [left_rotate, need, bind, Except.bind, pure, Except.pure, hnd, hprev, hpnd,
        hvals, hkeys, hm0, hm1, hleaf,
        List.getElem?_cons_zero, List.getElem?_cons_succ, List.getLast?_concat, hgi,
        getN_setN_same hpnd, getN_setN_ne hpi, getN_setN_ne (Ne.symm hpi),
        getN_setN_ne (Ne.symm hci), getN_setN_ne (Ne.symm hcp), hcnd,
        getN_setN_ne hci, getN_setN_same hgi,
        Bool.false_eq_true, if_false]
    · simp [setN_length]
    · rw [getN_setN_ne hcp, getN_setN_ne (Ne.symm hpi), getN_setN_same hpnd]; rfl
    · rw [getN_setN_ne hcp, getN_setN_ne (Ne.symm hpi), getN_setN_same hpnd]; rfl
    · rw [getN_setN_ne hcp, getN_setN_ne (Ne.symm hpi), getN_setN_same hpnd]; rfl
    · rw [getN_setN_ne hci, getN_setN_same hgi]; rfl
    · rw [getN_setN_ne hci, getN_setN_same hgi]; rfl
    · rw [getN_setN_ne hci, getN_setN_same hgi]; rfl

theorem right_rotate_spec (t : BPlusTree) (i q : Nat) (nd qnd : Node)
    (qv0 : Slot) (qvrest : List Slot) (vinit : List Slot) (vlast : Slot)
    (kinit : List Int) (klast : Int) (m0 m1 : Int)
    (hnd : getN t i = some nd)
    (hnext : nd.next = some q)
    (hqnd : getN t q = some qnd)
    (hqvals : qnd.values = qv0 :: qvrest)
    (hvals : nd.values = vinit ++ [vlast])
    (hkeys : nd.keys = kinit ++ [klast])
    (hm0 : search_min_key_in_subtree t qv0 = .ok m0)
    (hm1 : search_min_key_in_subtree t vlast = .ok m1)
    (hqi : q ≠ i)
    (hcase : qnd.leaf = true ∨
      (qnd.leaf = false ∧ ∃ c cnd, vlast = Slot.child c ∧ c ≠ i ∧ c ≠ q ∧ getN t c = some cnd)) :
    ∃ t2, right_rotate t i = .ok (t2, qnd.parent, m0, m1) ∧
      t2.nodes.length = t.nodes.length ∧
      (getN t2 q).map Node.keys = some ((if nd.leaf then m1 else m0) :: qnd.keys) ∧
      (getN t2 q).map Node.values = some (vlast :: qnd.values) ∧
      (getN t2 q).map Node.parent = some qnd.parent ∧
      (getN t2 i).map Node.keys = some kinit ∧
      (getN t2 i).map Node.values = some vinit ∧
      (getN t2 i).map Node.parent = some nd.parent := by
  have hke : (kinit ++ [klast]).isEmpty = false := by simp
  have hve : (vinit ++ [vlast]).isEmpty = false := by simp
  have hgi : getN (setN t q
      { qnd with
        keys := (if nd.leaf then m1 else m0) :: qnd.keys,
        values := vlast :: qnd.values }) i
      = some nd := (getN_setN_ne hqi).trans hnd
  rcases hcase with hleaf | ⟨hleaf, c, cnd, hvl, hci, hcq, hcnd⟩
  · use setN
      (setN t q
        { qnd with
          keys := (if nd.leaf then m1 else m0) :: qnd.keys,
          values := vlast :: qnd.values })
      i { nd with keys := kinit, values := vinit }
    refine ⟨?_, ?_, ?_, ?_, ?_, ?_, ?_, ?_⟩
    · simp only [hleaf] at hgi
      simp only [right_rotate, need, bind, Except.bind, pure, Except.pure, hnd, hnext, hqnd,
        hqvals, hvals, hkeys, hm0, hm1, hleaf, hke, hve,
        List.getElem?_cons_zero, List.getLast?_concat, List.dropLast_concat, hgi,
        getN_setN_same hqnd, getN_setN_ne hqi, getN_setN_ne (Ne.symm hqi), getN_setN_same hgi,
        Bool.false_eq_true, if_false, if_true]
    · simp [setN_length]
    · rw [getN_setN_ne (Ne.symm hqi), getN_setN_same hqnd]; rfl
    · rw [getN_setN_ne (Ne.symm hqi), getN_setN_same hqnd]; rfl
    · rw [getN_setN_ne (Ne.symm hqi), getN_setN_same hqnd]; rfl
    · rw [getN_setN_same hgi]; rfl
    · rw [getN_setN_same hgi]; rfl
    · rw [getN_setN_same hgi]; rfl
  · subst hvl
    use setN
      (setN (setN t q
        { qnd with
          keys := (if nd.leaf then m1 else m0) :: qnd.keys,
          values := Slot.child c :: qnd.values })
        i { nd with keys := kinit, values := vinit })
      c { cnd with parent := some q }
    refine ⟨?_, ?_, ?_, ?_, ?_, ?_, ?_, ?_⟩
    · simp only [hleaf] at hgi
      simp only [right_rotate, need, bind, Except.bind, pure, Except.pure, hnd, hnext, hqnd,
        hqvals, hvals, hkeys, hm0, hm1, hleaf, hke, hve,
        List.getElem?_cons_zero, List.getLast?_concat, List.dropLast_concat, hgi,
        getN_setN_same hqnd, getN_setN_ne hqi, getN_setN_ne (Ne.symm hqi), getN_setN_same hgi,
        getN_setN_ne (Ne.symm hci), getN_setN_ne (Ne.symm hcq), hcnd,
        getN_setN_ne hcq, getN_setN_ne hci,
        Bool.false_eq_true, if_false]
    · simp [setN_length]
    · rw [getN_setN_ne hcq, getN_setN_ne (Ne.symm hqi), getN_setN_same hqnd]; rfl
    · rw [getN_setN_ne hcq, getN_setN_ne (Ne.symm hqi), getN_setN_same hqnd]; rfl
    · rw [getN_setN_ne hcq, getN_setN_ne (Ne.symm hqi), getN_setN_same hqnd]; rfl
    · rw [getN_setN_ne hci, getN_setN_same hgi]; rfl
    · rw [getN_setN_ne hci, getN_setN_same hgi]; rfl
    · rw [getN_setN_ne hci, getN_setN_same hgi]; rfl

theorem update_parents_preserves :
    ∀ (fuel : Nat) (t : BPlusTree) (o : Option Nat) (a b : Int) (t3 : BPlusTree),
      update_parents t o a b fuel = .ok t3 →
      t3.nodes.length = t.nodes.length ∧
      ∀ j nd0, getN t j = some nd0 → ∃ nd1, getN t3 j = some nd1 ∧
        nd1.order = nd0.order ∧ nd1.leaf = nd0.leaf ∧ nd1.values = nd0.values ∧
        nd1.parent = nd0.parent ∧ nd1.prev = nd0.prev ∧ nd1.next = nd0.next := by
  intro fuel
  induction fuel with
  | zero =>
    intro t o a b t3 h
    match o with
    | none =>
      simp only [update_parents] at h
      cases h
      exact ⟨rfl, fun j nd0 hj => ⟨nd0, hj, rfl, rfl, rfl, rfl, rfl, rfl⟩⟩
    | some i =>
      simp only [update_parents] at h
      exact Except.noConfusion h
  | succ fuel ih =>
    intro t o a b t3 h
    match o with
    | none =>
      simp only [update_parents] at h
      cases h
      exact ⟨rfl, fun j nd0 hj => ⟨nd0, hj, rfl, rfl, rfl, rfl, rfl, rfl⟩⟩
    | some i =>
      simp only [update_parents] at h
      match hi : getN t i with
      | none => rw [hi] at h; exact Except.noConfusion h
      | some nd =>
        rw [hi] at h
        obtain ⟨hlen, hpres⟩ := ih _ _ _ _ _ h
        constructor
        · rw [hlen]; exact setN_length
        · intro j nd0 hj
          by_cases hji : j = i
          · subst hji
            have hj2 : getN (setN t j
                { nd with keys := match nd.keys.findIdx? (fun k => k == a) with
                    | some jx => nd.keys.set jx b
                    | none => nd.keys }) j = some
                { nd with keys := match nd.keys.findIdx? (fun k => k == a) with
                    | some jx => nd.keys.set jx b
                    | none => nd.keys } := getN_setN_same hi
            obtain ⟨nd1, h1, h2, h3, h4, h5, h6, h7⟩ := hpres _ _ hj2
            refine ⟨nd1, h1, ?_, ?_, ?_, ?_, ?_, ?_⟩ <;>
              { rw [hj] at hi
                cases (Option.some.injEq _ _).mp hi
                assumption }
          · have hj2 : getN (setN t i
                { nd with keys := match nd.keys.findIdx? (fun k => k == a) with
                    | some jx => nd.keys.set jx b
                    | none => nd.keys }) j = some nd0 :=
              (getN_setN_ne (fun he => hji he.symm)).trans hj
            exact hpres _ _ hj2

theorem reparentAll_ok :
    ∀ (slots : List Slot) (t : BPlusTree) (p : Nat),
      (∀ s ∈ slots, ∃ c, s = Slot.child c ∧ (getN t c).isSome) →
      ∃ t4, reparentAll t slots p = .ok t4 ∧
        t4.nodes.length = t.nodes.length ∧
        ∀ j nd0, getN t j = some nd0 → ∃ nd1, getN t4 j = some nd1 ∧
          nd1.order = nd0.order ∧ nd1.leaf = nd0.leaf ∧ nd1.keys = nd0.keys ∧
          nd1.values = nd0.values ∧ nd1.prev = nd0.prev ∧ nd1.next = nd0.next ∧
          (Slot.child j ∉ slots → nd1.parent = nd0.parent) := by
  intro slots
  induction slots with
  | nil =>
    intro t p _
    exact ⟨t, rfl, rfl, fun j nd0 hj => ⟨nd0, hj, rfl, rfl, rfl, rfl, rfl, rfl, fun _ => rfl⟩⟩
  | cons s rest ih =>
    intro t p h
    obtain ⟨c, rfl, hsome⟩ := h s (List.mem_cons_self s rest)
    obtain ⟨cnd, hcnd⟩ := Option.isSome_iff_exists.mp hsome
    have hrest : ∀ s2 ∈ rest, ∃ c2, s2 = Slot.child c2 ∧
        (getN (setN t c { cnd with parent := some p }) c2).isSome := by
      intro s2 hs2
      obtain ⟨c2, he, hs⟩ := h s2 (List.mem_cons_of_mem _ hs2)
      exact ⟨c2, he, getN_setN_isSome.trans hs⟩
    obtain ⟨t4, hrep, hlen, hpres⟩ := ih (setN t c { cnd with parent := some p }) p hrest
    refine ⟨t4, ?_, ?_, ?_⟩
    · simp only [reparentAll, hcnd]
      exact hrep
    · rw [hlen]; exact setN_length
    · intro j nd0 hj
      by_cases hjc : j = c
      · subst hjc
        have hj0 : nd0 = cnd := by
          rw [hj] at hcnd
          exact (Option.some.injEq _ _).mp hcnd.symm ▸ rfl
        subst hj0
        obtain ⟨nd1, h1, h2, h3, h4, h5, h6, h7, _⟩ :=
          hpres j { nd0 with parent := some p } (getN_setN_same hcnd)
        exact ⟨nd1, h1, h2, h3, h4, h5, h6, h7,
          fun hnot => absurd (List.mem_cons_self _ _) hnot⟩
      · obtain ⟨nd1, h1, h2, h3, h4, h5, h6, h7, h8⟩ :=
          hpres j nd0 ((getN_setN_ne fun he => hjc he.symm).trans hj)
        exact ⟨nd1, h1, h2, h3, h4, h5, h6, h7,
          fun hnot => h8 fun hmem => hnot (List.mem_cons_of_mem _ hmem)⟩

theorem left_redistribute_merge_spec (t : BPlusTree) (i ls pr : Nat) (idx : Nat)
    (nd lnd pnd : Node) (s0 : Slot) (m0 m1 : Int)
    (hnd : getN t i = some nd)
    (hprev : nd.prev = some ls)
    (hlnd : getN t ls = some lnd)
    (hnob : ¬ ceilHalf t.order < lnd.keys.length)
    (hsum : ¬ t.order < nd.keys.length + lnd.keys.length)
    (hs0 : nd.values[0]? = some s0)
    (hm0 : search_min_key_in_subtree t s0 = .ok m0)
    (hnm0 : idx = 0 → ∃ nx xnd xs0, nd.next = some nx ∧ getN t nx = some xnd ∧
      xnd.values[0]? = some xs0 ∧ search_min_key_in_subtree t xs0 = .ok m1)
    (hnm1 : idx ≠ 0 → m1 = m0)
    (hpr : nd.parent = some pr)
    (hpnd : getN t pr = some pnd)
    (hlsi : ls ≠ i)
    (hpri : pr ≠ i)
    (hprls : pr ≠ ls)
    (pk0 : Int) (pv0 : Slot)
    (hkidx : pnd.keys[if idx = 0 then idx else idx - 1]? = some pk0)
    (hvidx : pnd.values[idx]? = some pv0)
    (hnx : ∀ nx, nd.next = some nx → nx ≠ ls ∧ nx ≠ pr ∧ nx ≠ i ∧ (getN t nx).isSome)
    (hrep : nd.leaf = true ∨ (nd.leaf = false ∧
      ∀ s ∈ lnd.values ++ nd.values, ∃ c, s = Slot.child c ∧ (getN t c).isSome ∧
        c ≠ i ∧ c ≠ ls ∧ c ≠ pr ∧ ∀ nx, nd.next = some nx → c ≠ nx)) :
    ∃ t2, left_redistribute t i idx = .ok (t2, nd.parent, m0, m1) ∧
      t2.nodes.length = t.nodes.length ∧
      (getN t2 ls).map Node.keys =
        some (lnd.keys ++ (if nd.leaf then nd.keys else m0 :: nd.keys)) ∧
      (getN t2 ls).map Node.values = some (lnd.values ++ nd.values) ∧
      (getN t2 ls).map Node.next = some nd.next ∧
      (getN t2 pr).map Node.keys =
        some (pnd.keys.take (if idx = 0 then idx else idx - 1) ++
          pnd.keys.drop ((if idx = 0 then idx else idx - 1) + 1)) ∧
      (getN t2 pr).map Node.values =
        some (pnd.values.take idx ++ pnd.values.drop (idx + 1)) ∧
      (∀ nx, nd.next = some nx → (getN t2 nx).map Node.prev = some (some ls)) ∧
      (getN t2 i).map Node.parent = some nd.parent := by
  have hnob2 : decide (ceilHalf t.order < lnd.keys.length) = false := decide_eq_false hnob
  have hsum2 : decide (t.order < nd.keys.length + lnd.keys.length) = false := decide_eq_false hsum
  by_cases hidx : idx = 0
  · subst hidx
    obtain ⟨nx, xnd, xs0, hnxe, hxnd, hxs0, hsm1⟩ := hnm0 rfl
    obtain ⟨hnxls, hnxpr, hnxi, _⟩ := hnx nx hnxe
    simp only [eq_self_iff_true, if_true] at hkidx
    rcases hrep with hleaf | ⟨hleaf, hslots⟩
    · have hga : getN (setN t ls { lnd with keys := lnd.keys ++ nd.keys, values := lnd.values ++ nd.values }) pr = some pnd := (getN_setN_ne (Ne.symm hprls)).trans hpnd
      have hgb : getN (setN (setN t ls { lnd with keys := lnd.keys ++ nd.keys, values := lnd.values ++ nd.values }) pr { pnd with keys := pnd.keys.take 0 ++ pnd.keys.drop (0 + 1) }) pr = some { pnd with keys := pnd.keys.take 0 ++ pnd.keys.drop (0 + 1) } := getN_setN_same hga
      have hgcls : getN (setN (setN (setN t ls { lnd with keys := lnd.keys ++ nd.keys, values := lnd.values ++ nd.values }) pr { pnd with keys := pnd.keys.take 0 ++ pnd.keys.drop (0 + 1) }) pr { pnd with keys := pnd.keys.take 0 ++ pnd.keys.drop (0 + 1), values := pnd.values.take 0 ++ pnd.values.drop (0 + 1) }) ls = some { lnd with keys := lnd.keys ++ nd.keys, values := lnd.values ++ nd.values } := (getN_setN_ne hprls).trans ((getN_setN_ne hprls).trans (getN_setN_same hlnd))
      have hgcpr : getN (setN (setN (setN t ls { lnd with keys := lnd.keys ++ nd.keys, values := lnd.values ++ nd.values }) pr { pnd with keys := pnd.keys.take 0 ++ pnd.keys.drop (0 + 1) }) pr { pnd with keys := pnd.keys.take 0 ++ pnd.keys.drop (0 + 1), values := pnd.values.take 0 ++ pnd.values.drop (0 + 1) }) pr = some { pnd with keys := pnd.keys.take 0 ++ pnd.keys.drop (0 + 1), values := pnd.values.take 0 ++ pnd.values.drop (0 + 1) } := getN_setN_same hgb
      have hgci : getN (setN (setN (setN t ls { lnd with keys := lnd.keys ++ nd.keys, values := lnd.values ++ nd.values }) pr { pnd with keys := pnd.keys.take 0 ++ pnd.keys.drop (0 + 1) }) pr { pnd with keys := pnd.keys.take 0 ++ pnd.keys.drop (0 + 1), values := pnd.values.take 0 ++ pnd.values.drop (0 + 1) }) i = some nd := (getN_setN_ne hpri).trans ((getN_setN_ne hpri).trans ((getN_setN_ne hlsi).trans hnd))
      obtain ⟨xnd0, hxnd0⟩ := Option.isSome_iff_exists.mp (hnx nx hnxe).2.2.2
      have hxe : getN (setN (setN (setN (setN t ls { lnd with keys := lnd.keys ++ nd.keys, values := lnd.values ++ nd.values }) pr { pnd with keys := pnd.keys.take 0 ++ pnd.keys.drop (0 + 1) }) pr { pnd with keys := pnd.keys.take 0 ++ pnd.keys.drop (0 + 1), values := pnd.values.take 0 ++ pnd.values.drop (0 + 1) }) ls { lnd with keys := lnd.keys ++ nd.keys, values := lnd.values ++ nd.values, next := some nx }) nx = some xnd0 := (getN_setN_ne (Ne.symm hnxls)).trans ((getN_setN_ne (Ne.symm hnxpr)).trans ((getN_setN_ne (Ne.symm hnxpr)).trans ((getN_setN_ne (Ne.symm hnxls)).trans hxnd0)))
      have hgfi : getN (setN (setN (setN (setN (setN t ls { lnd with keys := lnd.keys ++ nd.keys, values := lnd.values ++ nd.values }) pr { pnd with keys := pnd.keys.take 0 ++ pnd.keys.drop (0 + 1) }) pr { pnd with keys := pnd.keys.take 0 ++ pnd.keys.drop (0 + 1), values := pnd.values.take 0 ++ pnd.values.drop (0 + 1) }) ls { lnd with keys := lnd.keys ++ nd.keys, values := lnd.values ++ nd.values, next := some nx }) nx { xnd0 with prev := some ls }) i = some nd := (getN_setN_ne hnxi).trans ((getN_setN_ne hlsi).trans hgci)
      use setN (setN (setN (setN (setN t ls { lnd with keys := lnd.keys ++ nd.keys, values := lnd.values ++ nd.values }) pr { pnd with keys := pnd.keys.take 0 ++ pnd.keys.drop (0 + 1) }) pr { pnd with keys := pnd.keys.take 0 ++ pnd.keys.drop (0 + 1), values := pnd.values.take 0 ++ pnd.values.drop (0 + 1) }) ls { lnd with keys := lnd.keys ++ nd.keys, values := lnd.values ++ nd.values, next := some nx }) nx { xnd0 with prev := some ls }
      refine ⟨?_, ?_, ?_, ?_, ?_, ?_, ?_, ?_, ?_⟩
      · simp only [left_redistribute, need, bind, Except.bind, pure, Except.pure, popAt,
          hnd, hprev, hlnd, hnob2, hsum2, Bool.false_eq_true, if_false, if_true, eq_self_iff_true, if_true,
          hs0, hm0, hnxe, hxnd, hxs0, hsm1, hpr, hkidx, hvidx, hleaf, hnxe,
          hga, hgb, hgcls, hgfi, hxe]
      · simp [setN_length]
      · rw [getN_setN_ne hnxls, getN_setN_same hgcls]; simp [hleaf]
      · rw [getN_setN_ne hnxls, getN_setN_same hgcls]; simp
      · rw [getN_setN_ne hnxls, getN_setN_same hgcls]; simp [hnxe]
      · rw [getN_setN_ne hnxpr, getN_setN_ne (Ne.symm hprls), getN_setN_same hgb]; simp [eq_self_iff_true, if_true]
      · rw [getN_setN_ne hnxpr, getN_setN_ne (Ne.symm hprls), getN_setN_same hgb]; simp [eq_self_iff_true, if_true]
      · intro nx0 h0
        rw [hnxe] at h0
        cases h0
        rw [getN_setN_same hxe]
        rfl
      · rw [hgfi]
        rfl
    · have hga : getN (setN t ls { lnd with keys := lnd.keys ++ m0 :: nd.keys, values := lnd.values ++ nd.values }) pr = some pnd := (getN_setN_ne (Ne.symm hprls)).trans hpnd
      have hgb : getN (setN (setN t ls { lnd with keys := lnd.keys ++ m0 :: nd.keys, values := lnd.values ++ nd.values }) pr { pnd with keys := pnd.keys.take 0 ++ pnd.keys.drop (0 + 1) }) pr = some { pnd with keys := pnd.keys.take 0 ++ pnd.keys.drop (0 + 1) } := getN_setN_same hga
      have hgcls : getN (setN (setN (setN t ls { lnd with keys := lnd.keys ++ m0 :: nd.keys, values := lnd.values ++ nd.values }) pr { pnd with keys := pnd.keys.take 0 ++ pnd.keys.drop (0 + 1) }) pr { pnd with keys := pnd.keys.take 0 ++ pnd.keys.drop (0 + 1), values := pnd.values.take 0 ++ pnd.values.drop (0 + 1) }) ls = some { lnd with keys := lnd.keys ++ m0 :: nd.keys, values := lnd.values ++ nd.values } := (getN_setN_ne hprls).trans ((getN_setN_ne hprls).trans (getN_setN_same hlnd))
      have hgcpr : getN (setN (setN (setN t ls { lnd with keys := lnd.keys ++ m0 :: nd.keys, values := lnd.values ++ nd.values }) pr { pnd with keys := pnd.keys.take 0 ++ pnd.keys.drop (0 + 1) }) pr { pnd with keys := pnd.keys.take 0 ++ pnd.keys.drop (0 + 1), values := pnd.values.take 0 ++ pnd.values.drop (0 + 1) }) pr = some { pnd with keys := pnd.keys.take 0 ++ pnd.keys.drop (0 + 1), values := pnd.values.take 0 ++ pnd.values.drop (0 + 1) } := getN_setN_same hgb
      have hgci : getN (setN (setN (setN t ls { lnd with keys := lnd.keys ++ m0 :: nd.keys, values := lnd.values ++ nd.values }) pr { pnd with keys := pnd.keys.take 0 ++ pnd.keys.drop (0 + 1) }) pr { pnd with keys := pnd.keys.take 0 ++ pnd.keys.drop (0 + 1), values := pnd.values.take 0 ++ pnd.values.drop (0 + 1) }) i = some nd := (getN_setN_ne hpri).trans ((getN_setN_ne hpri).trans ((getN_setN_ne hlsi).trans hnd))
      have hslots2 : ∀ s ∈ lnd.values ++ nd.values, ∃ c, s = Slot.child c ∧ (getN (setN (setN (setN t ls { lnd with keys := lnd.keys ++ m0 :: nd.keys, values := lnd.values ++ nd.values }) pr { pnd with keys := pnd.keys.take 0 ++ pnd.keys.drop (0 + 1) }) pr { pnd with keys := pnd.keys.take 0 ++ pnd.keys.drop (0 + 1), values := pnd.values.take 0 ++ pnd.values.drop (0 + 1) }) c).isSome := by
        intro s hs
        obtain ⟨c, hce, hcs, _, _, _, _⟩ := hslots s hs
        exact ⟨c, hce, getN_setN_isSome.trans (getN_setN_isSome.trans (getN_setN_isSome.trans hcs))⟩
      obtain ⟨t4, hrepEq, hlen4, hpres4⟩ := reparentAll_ok (lnd.values ++ nd.values) (setN (setN (setN t ls { lnd with keys := lnd.keys ++ m0 :: nd.keys, values := lnd.values ++ nd.values }) pr { pnd with keys := pnd.keys.take 0 ++ pnd.keys.drop (0 + 1) }) pr { pnd with keys := pnd.keys.take 0 ++ pnd.keys.drop (0 + 1), values := pnd.values.take 0 ++ pnd.values.drop (0 + 1) }) ls hslots2
      obtain ⟨L4, hL4get, _, _, hL4k, hL4v, hL4pv, hL4nx, _⟩ := hpres4 ls _ hgcls
      obtain ⟨PR4, hPR4get, _, _, hPR4k, hPR4v, _, _, _⟩ := hpres4 pr _ hgcpr
      have hchildnoti : Slot.child i ∉ lnd.values ++ nd.values := by
        intro hmem
        obtain ⟨c, hce, _, hci, _, _, _⟩ := hslots _ hmem
        exact hci ((Slot.child.injEq _ _).mp hce).symm
      obtain ⟨NDI, hNDIget, _, _, _, _, _, _, hNDIpar⟩ := hpres4 i _ hgci
      have hpar4 : NDI.parent = nd.parent := hNDIpar hchildnoti
      obtain ⟨xnd0, hxnd0⟩ := Option.isSome_iff_exists.mp (hnx nx hnxe).2.2.2
      have hgcnx : getN (setN (setN (setN t ls { lnd with keys := lnd.keys ++ m0 :: nd.keys, values := lnd.values ++ nd.values }) pr { pnd with keys := pnd.keys.take 0 ++ pnd.keys.drop (0 + 1) }) pr { pnd with keys := pnd.keys.take 0 ++ pnd.keys.drop (0 + 1), values := pnd.values.take 0 ++ pnd.values.drop (0 + 1) }) nx = some xnd0 := (getN_setN_ne (Ne.symm hnxpr)).trans ((getN_setN_ne (Ne.symm hnxpr)).trans ((getN_setN_ne (Ne.symm hnxls)).trans hxnd0))
      obtain ⟨XND4, hXND4get, _, _, _, _, _, _, _⟩ := hpres4 nx _ hgcnx
      have hxe : getN (setN t4 ls { L4 with next := some nx }) nx = some XND4 := (getN_setN_ne (Ne.symm hnxls)).trans hXND4get
      have hgfi : getN (setN (setN t4 ls { L4 with next := some nx }) nx { XND4 with prev := some ls }) i = some NDI := (getN_setN_ne hnxi).trans ((getN_setN_ne hlsi).trans hNDIget)
      use setN (setN t4 ls { L4 with next := some nx }) nx { XND4 with prev := some ls }
      refine ⟨?_, ?_, ?_, ?_, ?_, ?_, ?_, ?_, ?_⟩
      · simp only [left_redistribute, need, bind, Except.bind, pure, Except.pure, popAt,
          hnd, hprev, hlnd, hnob2, hsum2, Bool.false_eq_true, if_false, if_true, eq_self_iff_true, if_true,
          hs0, hm0, hnxe, hxnd, hxs0, hsm1, hpr, hkidx, hvidx, hleaf, hnxe,
          hga, hgb, hgcls, hrepEq, hL4get, hgfi, hpar4, hxe]
      · simp [setN_length, hlen4]
      · rw [getN_setN_ne hnxls, getN_setN_same hL4get]; simp [hL4k, hleaf]
      · rw [getN_setN_ne hnxls, getN_setN_same hL4get]; simp [hL4v]
      · rw [getN_setN_ne hnxls, getN_setN_same hL4get]; simp [hnxe]
      · rw [getN_setN_ne hnxpr, getN_setN_ne (Ne.symm hprls), hPR4get]; simp [hPR4k, eq_self_iff_true, if_true]
      · rw [getN_setN_ne hnxpr, getN_setN_ne (Ne.symm hprls), hPR4get]; simp [hPR4v, eq_self_iff_true, if_true]
      · intro nx0 h0
        rw [hnxe] at h0
        cases h0
        rw [getN_setN_same hxe]
        rfl
      · rw [hgfi]
        simp [hpar4]
  · have hidxf : (idx = 0) = False := eq_false hidx
    have hm1e : m1 = m0 := hnm1 hidx
    simp only [hidxf, if_false] at hkidx
    rcases hrep with hleaf | ⟨hleaf, hslots⟩
    · cases hnext : nd.next with
      | none =>
        have hga : getN (setN t ls { lnd with keys := lnd.keys ++ nd.keys, values := lnd.values ++ nd.values }) pr = some pnd := (getN_setN_ne (Ne.symm hprls)).trans hpnd
        have hgb : getN (setN (setN t ls { lnd with keys := lnd.keys ++ nd.keys, values := lnd.values ++ nd.values }) pr { pnd with keys := pnd.keys.take (idx - 1) ++ pnd.keys.drop ((idx - 1) + 1) }) pr = some { pnd with keys := pnd.keys.take (idx - 1) ++ pnd.keys.drop ((idx - 1) + 1) } := getN_setN_same hga
        have hgcls : getN (setN (setN (setN t ls { lnd with keys := lnd.keys ++ nd.keys, values := lnd.values ++ nd.values }) pr { pnd with keys := pnd.keys.take (idx - 1) ++ pnd.keys.drop ((idx - 1) + 1) }) pr { pnd with keys := pnd.keys.take (idx - 1) ++ pnd.keys.drop ((idx - 1) + 1), values := pnd.values.take idx ++ pnd.values.drop (idx + 1) }) ls = some { lnd with keys := lnd.keys ++ nd.keys, values := lnd.values ++ nd.values } := (getN_setN_ne hprls).trans ((getN_setN_ne hprls).trans (getN_setN_same hlnd))
        have hgcpr : getN (setN (setN (setN t ls { lnd with keys := lnd.keys ++ nd.keys, values := lnd.values ++ nd.values }) pr { pnd with keys := pnd.keys.take (idx - 1) ++ pnd.keys.drop ((idx - 1) + 1) }) pr { pnd with keys := pnd.keys.take (idx - 1) ++ pnd.keys.drop ((idx - 1) + 1), values := pnd.values.take idx ++ pnd.values.drop (idx + 1) }) pr = some { pnd with keys := pnd.keys.take (idx - 1) ++ pnd.keys.drop ((idx - 1) + 1), values := pnd.values.take idx ++ pnd.values.drop (idx + 1) } := getN_setN_same hgb
        have hgci : getN (setN (setN (setN t ls { lnd with keys := lnd.keys ++ nd.keys, values := lnd.values ++ nd.values }) pr { pnd with keys := pnd.keys.take (idx - 1) ++ pnd.keys.drop ((idx - 1) + 1) }) pr { pnd with keys := pnd.keys.take (idx - 1) ++ pnd.keys.drop ((idx - 1) + 1), values := pnd.values.take idx ++ pnd.values.drop (idx + 1) }) i = some nd := (getN_setN_ne hpri).trans ((getN_setN_ne hpri).trans ((getN_setN_ne hlsi).trans hnd))
        have hgfi : getN (setN (setN (setN (setN t ls { lnd with keys := lnd.keys ++ nd.keys, values := lnd.values ++ nd.values }) pr { pnd with keys := pnd.keys.take (idx - 1) ++ pnd.keys.drop ((idx - 1) + 1) }) pr { pnd with keys := pnd.keys.take (idx - 1) ++ pnd.keys.drop ((idx - 1) + 1), values := pnd.values.take idx ++ pnd.values.drop (idx + 1) }) ls { lnd with keys := lnd.keys ++ nd.keys, values := lnd.values ++ nd.values, next := none }) i = some nd := (getN_setN_ne hlsi).trans hgci
        use setN (setN (setN (setN t ls { lnd with keys := lnd.keys ++ nd.keys, values := lnd.values ++ nd.values }) pr { pnd with keys := pnd.keys.take (idx - 1) ++ pnd.keys.drop ((idx - 1) + 1) }) pr { pnd with keys := pnd.keys.take (idx - 1) ++ pnd.keys.drop ((idx - 1) + 1), values := pnd.values.take idx ++ pnd.values.drop (idx + 1) }) ls { lnd with keys := lnd.keys ++ nd.keys, values := lnd.values ++ nd.values, next := none }
        refine ⟨?_, ?_, ?_, ?_, ?_, ?_, ?_, ?_, ?_⟩
        · simp only [left_redistribute, need, bind, Except.bind, pure, Except.pure, popAt,
            hnd, hprev, hlnd, hnob2, hsum2, Bool.false_eq_true, if_false, if_true, hidxf, if_false, hm1e,
            hs0, hm0, hpr, hkidx, hvidx, hleaf, hnext,
            hga, hgb, hgcls, hgfi]
        · simp [setN_length]
        · rw [getN_setN_same hgcls]; simp [hleaf]
        · rw [getN_setN_same hgcls]; simp
        · rw [getN_setN_same hgcls]; simp [hnext]
        · rw [getN_setN_ne (Ne.symm hprls), getN_setN_same hgb]; simp [hidxf, if_false]
        · rw [getN_setN_ne (Ne.symm hprls), getN_setN_same hgb]; simp [hidxf, if_false]
        · intro nx0 h0
          exact Option.noConfusion h0
        · rw [hgfi]
          rfl
      | some nx =>
        obtain ⟨hnxls, hnxpr, hnxi, _⟩ := hnx nx hnext
        have hga : getN (setN t ls { lnd with keys := lnd.keys ++ nd.keys, values := lnd.values ++ nd.values }) pr = some pnd := (getN_setN_ne (Ne.symm hprls)).trans hpnd
        have hgb : getN (setN (setN t ls { lnd with keys := lnd.keys ++ nd.keys, values := lnd.values ++ nd.values }) pr { pnd with keys := pnd.keys.take (idx - 1) ++ pnd.keys.drop ((idx - 1) + 1) }) pr = some { pnd with keys := pnd.keys.take (idx - 1) ++ pnd.keys.drop ((idx - 1) + 1) } := getN_setN_same hga
        have hgcls : getN (setN (setN (setN t ls { lnd with keys := lnd.keys ++ nd.keys, values := lnd.values ++ nd.values }) pr { pnd with keys := pnd.keys.take (idx - 1) ++ pnd.keys.drop ((idx - 1) + 1) }) pr { pnd with keys := pnd.keys.take (idx - 1) ++ pnd.keys.drop ((idx - 1) + 1), values := pnd.values.take idx ++ pnd.values.drop (idx + 1) }) ls = some { lnd with keys := lnd.keys ++ nd.keys, values := lnd.values ++ nd.values } := (getN_setN_ne hprls).trans ((getN_setN_ne hprls).trans (getN_setN_same hlnd))
        have hgcpr : getN (setN (setN (setN t ls { lnd with keys := lnd.keys ++ nd.keys, values := lnd.values ++ nd.values }) pr { pnd with keys := pnd.keys.take (idx - 1) ++ pnd.keys.drop ((idx - 1) + 1) }) pr { pnd with keys := pnd.keys.take (idx - 1) ++ pnd.keys.drop ((idx - 1) + 1), values := pnd.values.take idx ++ pnd.values.drop (idx + 1) }) pr = some { pnd with keys := pnd.keys.take (idx - 1) ++ pnd.keys.drop ((idx - 1) + 1), values := pnd.values.take idx ++ pnd.values.drop (idx + 1) } := getN_setN_same hgb
        have hgci : getN (setN (setN (setN t ls { lnd with keys := lnd.keys ++ nd.keys, values := lnd.values ++ nd.values }) pr { pnd with keys := pnd.keys.take (idx - 1) ++ pnd.keys.drop ((idx - 1) + 1) }) pr { pnd with keys := pnd.keys.take (idx - 1) ++ pnd.keys.drop ((idx - 1) + 1), values := pnd.values.take idx ++ pnd.values.drop (idx + 1) }) i = some nd := (getN_setN_ne hpri).trans ((getN_setN_ne hpri).trans ((getN_setN_ne hlsi).trans hnd))
        obtain ⟨xnd0, hxnd0⟩ := Option.isSome_iff_exists.mp (hnx nx hnext).2.2.2
        have hxe : getN (setN (setN (setN (setN t ls { lnd with keys := lnd.keys ++ nd.keys, values := lnd.values ++ nd.values }) pr { pnd with keys := pnd.keys.take (idx - 1) ++ pnd.keys.drop ((idx - 1) + 1) }) pr { pnd with keys := pnd.keys.take (idx - 1) ++ pnd.keys.drop ((idx - 1) + 1), values := pnd.values.take idx ++ pnd.values.drop (idx + 1) }) ls { lnd with keys := lnd.keys ++ nd.keys, values := lnd.values ++ nd.values, next := some nx }) nx = some xnd0 := (getN_setN_ne (Ne.symm hnxls)).trans ((getN_setN_ne (Ne.symm hnxpr)).trans ((getN_setN_ne (Ne.symm hnxpr)).trans ((getN_setN_ne (Ne.symm hnxls)).trans hxnd0)))
        have hgfi : getN (setN (setN (setN (setN (setN t ls { lnd with keys := lnd.keys ++ nd.keys, values := lnd.values ++ nd.values }) pr { pnd with keys := pnd.keys.take (idx - 1) ++ pnd.keys.drop ((idx - 1) + 1) }) pr { pnd with keys := pnd.keys.take (idx - 1) ++ pnd.keys.drop ((idx - 1) + 1), values := pnd.values.take idx ++ pnd.values.drop (idx + 1) }) ls { lnd with keys := lnd.keys ++ nd.keys, values := lnd.values ++ nd.values, next := some nx }) nx { xnd0 with prev := some ls }) i = some nd := (getN_setN_ne hnxi).trans ((getN_setN_ne hlsi).trans hgci)
        use setN (setN (setN (setN (setN t ls { lnd with keys := lnd.keys ++ nd.keys, values := lnd.values ++ nd.values }) pr { pnd with keys := pnd.keys.take (idx - 1) ++ pnd.keys.drop ((idx - 1) + 1) }) pr { pnd with keys := pnd.keys.take (idx - 1) ++ pnd.keys.drop ((idx - 1) + 1), values := pnd.values.take idx ++ pnd.values.drop (idx + 1) }) ls { lnd with keys := lnd.keys ++ nd.keys, values := lnd.values ++ nd.values, next := some nx }) nx { xnd0 with prev := some ls }
        refine ⟨?_, ?_, ?_, ?_, ?_, ?_, ?_, ?_, ?_⟩
        · simp only [left_redistribute, need, bind, Except.bind, pure, Except.pure, popAt,
            hnd, hprev, hlnd, hnob2, hsum2, Bool.false_eq_true, if_false, if_true, hidxf, if_false, hm1e,
            hs0, hm0, hpr, hkidx, hvidx, hleaf, hnext,
            hga, hgb, hgcls, hgfi, hxe]
        · simp [setN_length]
        · rw [getN_setN_ne hnxls, getN_setN_same hgcls]; simp [hleaf]
        · rw [getN_setN_ne hnxls, getN_setN_same hgcls]; simp
        · rw [getN_setN_ne hnxls, getN_setN_same hgcls]; simp [hnext]
        · rw [getN_setN_ne hnxpr, getN_setN_ne (Ne.symm hprls), getN_setN_same hgb]; simp [hidxf, if_false]
        · rw [getN_setN_ne hnxpr, getN_setN_ne (Ne.symm hprls), getN_setN_same hgb]; simp [hidxf, if_false]
        · intro nx0 h0
          cases h0
          rw [getN_setN_same hxe]
          rfl
        · rw [hgfi]
          rfl
    · cases hnext : nd.next with
      | none =>
        have hga : getN (setN t ls { lnd with keys := lnd.keys ++ m0 :: nd.keys, values := lnd.values ++ nd.values }) pr = some pnd := (getN_setN_ne (Ne.symm hprls)).trans hpnd
        have hgb : getN (setN (setN t ls { lnd with keys := lnd.keys ++ m0 :: nd.keys, values := lnd.values ++ nd.values }) pr { pnd with keys := pnd.keys.take (idx - 1) ++ pnd.keys.drop ((idx - 1) + 1) }) pr = some { pnd with keys := pnd.keys.take (idx - 1) ++ pnd.keys.drop ((idx - 1) + 1) } := getN_setN_same hga
        have hgcls : getN (setN (setN (setN t ls { lnd with keys := lnd.keys ++ m0 :: nd.keys, values := lnd.values ++ nd.values }) pr { pnd with keys := pnd.keys.take (idx - 1) ++ pnd.keys.drop ((idx - 1) + 1) }) pr { pnd with keys := pnd.keys.take (idx - 1) ++ pnd.keys.drop ((idx - 1) + 1), values := pnd.values.take idx ++ pnd.values.drop (idx + 1) }) ls = some { lnd with keys := lnd.keys ++ m0 :: nd.keys, values := lnd.values ++ nd.values } := (getN_setN_ne hprls).trans ((getN_setN_ne hprls).trans (getN_setN_same hlnd))
        have hgcpr : getN (setN (setN (setN t ls { lnd with keys := lnd.keys ++ m0 :: nd.keys, values := lnd.values ++ nd.values }) pr { pnd with keys := pnd.keys.take (idx - 1) ++ pnd.keys.drop ((idx - 1) + 1) }) pr { pnd with keys := pnd.keys.take (idx - 1) ++ pnd.keys.drop ((idx - 1) + 1), values := pnd.values.take idx ++ pnd.values.drop (idx + 1) }) pr = some { pnd with keys := pnd.keys.take (idx - 1) ++ pnd.keys.drop ((idx - 1) + 1), values := pnd.values.take idx ++ pnd.values.drop (idx + 1) } := getN_setN_same hgb
        have hgci : getN (setN (setN (setN t ls { lnd with keys := lnd.keys ++ m0 :: nd.keys, values := lnd.values ++ nd.values }) pr { pnd with keys := pnd.keys.take (idx - 1) ++ pnd.keys.drop ((idx - 1) + 1) }) pr { pnd with keys := pnd.keys.take (idx - 1) ++ pnd.keys.drop ((idx - 1) + 1), values := pnd.values.take idx ++ pnd.values.drop (idx + 1) }) i = some nd := (getN_setN_ne hpri).trans ((getN_setN_ne hpri).trans ((getN_setN_ne hlsi).trans hnd))
        have hslots2 : ∀ s ∈ lnd.values ++ nd.values, ∃ c, s = Slot.child c ∧ (getN (setN (setN (setN t ls { lnd with keys := lnd.keys ++ m0 :: nd.keys, values := lnd.values ++ nd.values }) pr { pnd with keys := pnd.keys.take (idx - 1) ++ pnd.keys.drop ((idx - 1) + 1) }) pr { pnd with keys := pnd.keys.take (idx - 1) ++ pnd.keys.drop ((idx - 1) + 1), values := pnd.values.take idx ++ pnd.values.drop (idx + 1) }) c).isSome := by
          intro s hs
          obtain ⟨c, hce, hcs, _, _, _, _⟩ := hslots s hs
          exact ⟨c, hce, getN_setN_isSome.trans (getN_setN_isSome.trans (getN_setN_isSome.trans hcs))⟩
        obtain ⟨t4, hrepEq, hlen4, hpres4⟩ := reparentAll_ok (lnd.values ++ nd.values) (setN (setN (setN t ls { lnd with keys := lnd.keys ++ m0 :: nd.keys, values := lnd.values ++ nd.values }) pr { pnd with keys := pnd.keys.take (idx - 1) ++ pnd.keys.drop ((idx - 1) + 1) }) pr { pnd with keys := pnd.keys.take (idx - 1) ++ pnd.keys.drop ((idx - 1) + 1), values := pnd.values.take idx ++ pnd.values.drop (idx + 1) }) ls hslots2
        obtain ⟨L4, hL4get, _, _, hL4k, hL4v, hL4pv, hL4nx, _⟩ := hpres4 ls _ hgcls
        obtain ⟨PR4, hPR4get, _, _, hPR4k, hPR4v, _, _, _⟩ := hpres4 pr _ hgcpr
        have hchildnoti : Slot.child i ∉ lnd.values ++ nd.values := by
          intro hmem
          obtain ⟨c, hce, _, hci, _, _, _⟩ := hslots _ hmem
          exact hci ((Slot.child.injEq _ _).mp hce).symm
        obtain ⟨NDI, hNDIget, _, _, _, _, _, _, hNDIpar⟩ := hpres4 i _ hgci
        have hpar4 : NDI.parent = nd.parent := hNDIpar hchildnoti
        have hgfi : getN (setN t4 ls { L4 with next := none }) i = some NDI := (getN_setN_ne hlsi).trans hNDIget
        use setN t4 ls { L4 with next := none }
        refine ⟨?_, ?_, ?_, ?_, ?_, ?_, ?_, ?_, ?_⟩
        · simp only [left_redistribute, need, bind, Except.bind, pure, Except.pure, popAt,
            hnd, hprev, hlnd, hnob2, hsum2, Bool.false_eq_true, if_false, if_true, hidxf, if_false, hm1e,
            hs0, hm0, hpr, hkidx, hvidx, hleaf, hnext,
            hga, hgb, hgcls, hrepEq, hL4get, hgfi, hpar4]
        · simp [setN_length, hlen4]
        · rw [getN_setN_same hL4get]; simp [hL4k, hleaf]
        · rw [getN_setN_same hL4get]; simp [hL4v]
        · rw [getN_setN_same hL4get]; simp [hnext]
        · rw [getN_setN_ne (Ne.symm hprls), hPR4get]; simp [hPR4k, hidxf, if_false]
        · rw [getN_setN_ne (Ne.symm hprls), hPR4get]; simp [hPR4v, hidxf, if_false]
        · intro nx0 h0
          exact Option.noConfusion h0
        · rw [hgfi]
          simp [hpar4]
      | some nx =>
        obtain ⟨hnxls, hnxpr, hnxi, _⟩ := hnx nx hnext
        have hga : getN (setN t ls { lnd with keys := lnd.keys ++ m0 :: nd.keys, values := lnd.values ++ nd.values }) pr = some pnd := (getN_setN_ne (Ne.symm hprls)).trans hpnd
        have hgb : getN (setN (setN t ls { lnd with keys := lnd.keys ++ m0 :: nd.keys, values := lnd.values ++ nd.values }) pr { pnd with keys := pnd.keys.take (idx - 1) ++ pnd.keys.drop ((idx - 1) + 1) }) pr = some { pnd with keys := pnd.keys.take (idx - 1) ++ pnd.keys.drop ((idx - 1) + 1) } := getN_setN_same hga
        have hgcls : getN (setN (setN (setN t ls { lnd with keys := lnd.keys ++ m0 :: nd.keys, values := lnd.values ++ nd.values }) pr { pnd with keys := pnd.keys.take (idx - 1) ++ pnd.keys.drop ((idx - 1) + 1) }) pr { pnd with keys := pnd.keys.take (idx - 1) ++ pnd.keys.drop ((idx - 1) + 1), values := pnd.values.take idx ++ pnd.values.drop (idx + 1) }) ls = some { lnd with keys := lnd.keys ++ m0 :: nd.keys, values := lnd.values ++ nd.values } := (getN_setN_ne hprls).trans ((getN_setN_ne hprls).trans (getN_setN_same hlnd))
        have hgcpr : getN (setN (setN (setN t ls { lnd with keys := lnd.keys ++ m0 :: nd.keys, values := lnd.values ++ nd.values }) pr { pnd with keys := pnd.keys.take (idx - 1) ++ pnd.keys.drop ((idx - 1) + 1) }) pr { pnd with keys := pnd.keys.take (idx - 1) ++ pnd.keys.drop ((idx - 1) + 1), values := pnd.values.take idx ++ pnd.values.drop (idx + 1) }) pr = some { pnd with keys := pnd.keys.take (idx - 1) ++ pnd.keys.drop ((idx - 1) + 1), values := pnd.values.take idx ++ pnd.values.drop (idx + 1) } := getN_setN_same hgb
        have hgci : getN (setN (setN (setN t ls { lnd with keys := lnd.keys ++ m0 :: nd.keys, values := lnd.values ++ nd.values }) pr { pnd with keys := pnd.keys.take (idx - 1) ++ pnd.keys.drop ((idx - 1) + 1) }) pr { pnd with keys := pnd.keys.take (idx - 1) ++ pnd.keys.drop ((idx - 1) + 1), values := pnd.values.take idx ++ pnd.values.drop (idx + 1) }) i = some nd := (getN_setN_ne hpri).trans ((getN_setN_ne hpri).trans ((getN_setN_ne hlsi).trans hnd))
        have hslots2 : ∀ s ∈ lnd.values ++ nd.values, ∃ c, s = Slot.child c ∧ (getN (setN (setN (setN t ls { lnd with keys := lnd.keys ++ m0 :: nd.keys, values := lnd.values ++ nd.values }) pr { pnd with keys := pnd.keys.take (idx - 1) ++ pnd.keys.drop ((idx - 1) + 1) }) pr { pnd with keys := pnd.keys.take (idx - 1) ++ pnd.keys.drop ((idx - 1) + 1), values := pnd.values.take idx ++ pnd.values.drop (idx + 1) }) c).isSome := by
          intro s hs
          obtain ⟨c, hce, hcs, _, _, _, _⟩ := hslots s hs
          exact ⟨c, hce, getN_setN_isSome.trans (getN_setN_isSome.trans (getN_setN_isSome.trans hcs))⟩
        obtain ⟨t4, hrepEq, hlen4, hpres4⟩ := reparentAll_ok (lnd.values ++ nd.values) (setN (setN (setN t ls { lnd with keys := lnd.keys ++ m0 :: nd.keys, values := lnd.values ++ nd.values }) pr { pnd with keys := pnd.keys.take (idx - 1) ++ pnd.keys.drop ((idx - 1) + 1) }) pr { pnd with keys := pnd.keys.take (idx - 1) ++ pnd.keys.drop ((idx - 1) + 1), values := pnd.values.take idx ++ pnd.values.drop (idx + 1) }) ls hslots2
        obtain ⟨L4, hL4get, _, _, hL4k, hL4v, hL4pv, hL4nx, _⟩ := hpres4 ls _ hgcls
        obtain ⟨PR4, hPR4get, _, _, hPR4k, hPR4v, _, _, _⟩ := hpres4 pr _ hgcpr
        have hchildnoti : Slot.child i ∉ lnd.values ++ nd.values := by
          intro hmem
          obtain ⟨c, hce, _, hci, _, _, _⟩ := hslots _ hmem
          exact hci ((Slot.child.injEq _ _).mp hce).symm
        obtain ⟨NDI, hNDIget, _, _, _, _, _, _, hNDIpar⟩ := hpres4 i _ hgci
        have hpar4 : NDI.parent = nd.parent := hNDIpar hchildnoti
        obtain ⟨xnd0, hxnd0⟩ := Option.isSome_iff_exists.mp (hnx nx hnext).2.2.2
        have hgcnx : getN (setN (setN (setN t ls { lnd with keys := lnd.keys ++ m0 :: nd.keys, values := lnd.values ++ nd.values }) pr { pnd with keys := pnd.keys.take (idx - 1) ++ pnd.keys.drop ((idx - 1) + 1) }) pr { pnd with keys := pnd.keys.take (idx - 1) ++ pnd.keys.drop ((idx - 1) + 1), values := pnd.values.take idx ++ pnd.values.drop (idx + 1) }) nx = some xnd0 := (getN_setN_ne (Ne.symm hnxpr)).trans ((getN_setN_ne (Ne.symm hnxpr)).trans ((getN_setN_ne (Ne.symm hnxls)).trans hxnd0))
        obtain ⟨XND4, hXND4get, _, _, _, _, _, _, _⟩ := hpres4 nx _ hgcnx
        have hxe : getN (setN t4 ls { L4 with next := some nx }) nx = some XND4 := (getN_setN_ne (Ne.symm hnxls)).trans hXND4get
        have hgfi : getN (setN (setN t4 ls { L4 with next := some nx }) nx { XND4 with prev := some ls }) i = some NDI := (getN_setN_ne hnxi).trans ((getN_setN_ne hlsi).trans hNDIget)
        use setN (setN t4 ls { L4 with next := some nx }) nx { XND4 with prev := some ls }
        refine ⟨?_, ?_, ?_, ?_, ?_, ?_, ?_, ?_, ?_⟩
        · simp only [left_redistribute, need, bind, Except.bind, pure, Except.pure, popAt,
            hnd, hprev, hlnd, hnob2, hsum2, Bool.false_eq_true, if_false, if_true, hidxf, if_false, hm1e,
            hs0, hm0, hpr, hkidx, hvidx, hleaf, hnext,
            hga, hgb, hgcls, hrepEq, hL4get, hgfi, hpar4, hxe]
        · simp [setN_length, hlen4]
        · rw [getN_setN_ne hnxls, getN_setN_same hL4get]; simp [hL4k, hleaf]
        · rw [getN_setN_ne hnxls, getN_setN_same hL4get]; simp [hL4v]
        · rw [getN_setN_ne hnxls, getN_setN_same hL4get]; simp [hnext]
        · rw [getN_setN_ne hnxpr, getN_setN_ne (Ne.symm hprls), hPR4get]; simp [hPR4k, hidxf, if_false]
        · rw [getN_setN_ne hnxpr, getN_setN_ne (Ne.symm hprls), hPR4get]; simp [hPR4v, hidxf, if_false]
        · intro nx0 h0
          cases h0
          rw [getN_setN_same hxe]
          rfl
        · rw [hgfi]
          simp [hpar4]

/-- C8 (corrected): when an overflowing node has a left sibling below
capacity, the repair loop rotates left: the leftmost CHILD of the node moves
into the left sibling, but the key appended to the sibling is the minimum
key of the moved subtree (m0), which equals the leftmost key of the node
only when the node is a leaf; symmetrically, with no usable left sibling and
a right sibling below capacity, the rightmost child moves to the front of
the right sibling with key m1 (the minimum of the moved subtree) for leaves
and m0 (the old minimum of the right sibling) for internal nodes; the
minimum-key change (m0, m1) is then propagated upward by update_parents and
the loop returns without splitting. -/
theorem c8_overflow_rotate_spec (t : BPlusTree) (i : Nat) (nd : Node)
    (path : List Nat) (fuel : Nat)
    (hnd : getN t i = some nd) (hov : is_overflow nd = true) :
    (∀ p pnd s0 s1 srest k0 krest m0 m1,
      nd.prev = some p → getN t p = some pnd → pnd.keys.length < t.order →
      nd.values = s0 :: s1 :: srest → nd.keys = k0 :: krest →
      search_min_key_in_subtree t s0 = .ok m0 →
      search_min_key_in_subtree t s1 = .ok m1 →
      p ≠ i →
      (pnd.leaf = true ∨
        (pnd.leaf = false ∧ ∃ c cnd, s0 = Slot.child c ∧ c ≠ i ∧ c ≠ p ∧ getN t c = some cnd)) →
      (nd.leaf = true → s0 = Slot.pay [k0]) →
      ∃ t2,
        insertRepair t (some i) path (fuel + 1) =
          update_parents t2 nd.parent m0 m1 (t2.nodes.length + 1) ∧
        t2.nodes.length = t.nodes.length ∧
        (getN t2 p).map Node.keys = some (pnd.keys ++ [m0]) ∧
        (getN t2 p).map Node.values = some (pnd.values ++ [s0]) ∧
        (getN t2 i).map Node.keys = some krest ∧
        (getN t2 i).map Node.values = some (s1 :: srest) ∧
        (nd.leaf = true → m0 = k0)) ∧
    (∀ q qnd qv0 qvrest vinit vlast kinit klast m0 m1,
      (nd.prev = none ∨
        ∃ p pnd, nd.prev = some p ∧ getN t p = some pnd ∧ ¬ pnd.keys.length < t.order) →
      nd.next = some q → getN t q = some qnd → qnd.keys.length < t.order →
      qnd.values = qv0 :: qvrest →
      nd.values = vinit ++ [vlast] → nd.keys = kinit ++ [klast] →
      search_min_key_in_subtree t qv0 = .ok m0 →
      search_min_key_in_subtree t vlast = .ok m1 →
      q ≠ i →
      (qnd.leaf = true ∨
        (qnd.leaf = false ∧ ∃ c cnd, vlast = Slot.child c ∧ c ≠ i ∧ c ≠ q ∧ getN t c = some cnd)) →
      (nd.leaf = true → vlast = Slot.pay [klast]) →
      ∃ t2,
        insertRepair t (some i) path (fuel + 1) =
          update_parents t2 qnd.parent m0 m1 (t2.nodes.length + 1) ∧
        t2.nodes.length = t.nodes.length ∧
        (getN t2 q).map Node.keys = some ((if nd.leaf then m1 else m0) :: qnd.keys) ∧
        (getN t2 q).map Node.values = some (vlast :: qnd.values) ∧
        (getN t2 i).map Node.keys = some kinit ∧
        (getN t2 i).map Node.values = some vinit ∧
        (nd.leaf = true → m1 = klast)) := by
  constructor
  · intro p pnd s0 s1 srest k0 krest m0 m1 hprev hpnd hcap hvals hkeys hm0 hm1 hpi hcase hpay
    obtain ⟨t2, hlr, hlen, hpk, hpv, _, hik, hiv, _⟩ :=
      left_rotate_spec t i p nd pnd s0 s1 srest k0 krest m0 m1
        hnd hprev hpnd hvals hkeys hm0 hm1 hpi hcase
    have hro : rotate t i = .ok (t2, nd.parent, m0, m1) := by
      have hg : decide (pnd.keys.length < t.order) = true := decide_eq_true hcap
      simp only [rotate, need, bind, Except.bind, hnd, hprev, hpnd, hg, if_true]
      exact hlr
    refine ⟨t2, ?_, hlen, hpk, hpv, hik, hiv, ?_⟩
    · simp only [insertRepair, hnd, hov, hro, if_true]
    · intro hl
      have h := hm0
      rw [hpay hl] at h
      simp only [search_min_key_in_subtree, need, List.getElem?_cons_zero] at h
      exact ((Except.ok.injEq _ _).mp h).symm
  · intro q qnd qv0 qvrest vinit vlast kinit klast m0 m1 hguard hnext hqnd hqcap hqvals
      hvals hkeys hm0 hm1 hqi hcase hpay
    obtain ⟨t2, hrr, hlen, hqk, hqv, _, hik, hiv, _⟩ :=
      right_rotate_spec t i q nd qnd qv0 qvrest vinit vlast kinit klast m0 m1
        hnd hnext hqnd hqvals hvals hkeys hm0 hm1 hqi hcase
    have hro : rotate t i = .ok (t2, qnd.parent, m0, m1) := by
      have hgq : decide (qnd.keys.length < t.order) = true := decide_eq_true hqcap
      rcases hguard with hnone | ⟨p, pnd, hp, hpnd, hfull⟩
      · simp only [rotate, need, bind, Except.bind, hnd, hnone, hnext, hqnd, hgq,
          if_true, Bool.false_eq_true, if_false]
        exact hrr
      · have hgp : decide (pnd.keys.length < t.order) = false := decide_eq_false hfull
        simp only [rotate, need, bind, Except.bind, hnd, hp, hpnd, hgp, hnext, hqnd, hgq,
          if_true, Bool.false_eq_true, if_false]
        exact hrr
    refine ⟨t2, ?_, hlen, hqk, hqv, hik, hiv, ?_⟩
    · simp only [insertRepair, hnd, hov, hro, if_true]
    · intro hl
      have h := hm1
      rw [hpay hl] at h
      simp only [search_min_key_in_subtree, need, List.getElem?_cons_zero] at h
      exact ((Except.ok.injEq _ _).mp h).symm

/-- C9 (corrected): when a non-root underflowing node has a left sibling,
the repair delegates: if the sibling holds strictly more than ceil(order/2)
keys, left_redistribute is exactly a mirrored rotate (right_rotate on the
sibling) that moves the rightmost CHILD of the sibling to the front of the
node; the key inserted is the moved key itself only for leaves, while for
internal nodes it is the old minimum of the current subtree (m0), not the
rightmost key of the sibling.  Otherwise the whole node is merged into the
left sibling (for internal nodes the absorbed separator is the minimum m0
of the boundary subtree), the key at position idx - 1 (idx for the leftmost
child) and the child at position idx are popped from the direct parent, the
level chain is relinked around the vacated node, and the loop then
propagates the (m0, m1) change and ascends to the parent, stopping at a
node that is the root or not underflowing. -/
theorem c9_underflow_redistribute_spec (t : BPlusTree) (i ls pr : Nat) (idx : Nat)
    (nd lnd : Node)
    (hnd : getN t i = some nd)
    (hpar : nd.parent = some pr)
    (hund : is_underflow nd = true)
    (hprev : nd.prev = some ls)
    (hlnd : getN t ls = some lnd) :
    (ceilHalf t.order < lnd.keys.length →
      left_redistribute t i idx = right_rotate t ls ∧
      (∀ (s0 : Slot) (srest vinit : List Slot) (vlast : Slot)
         (kinit : List Int) (klast : Int) (m0 m1 : Int),
        lnd.next = some i →
        nd.values = s0 :: srest →
        lnd.values = vinit ++ [vlast] →
        lnd.keys = kinit ++ [klast] →
        search_min_key_in_subtree t s0 = .ok m0 →
        search_min_key_in_subtree t vlast = .ok m1 →
        i ≠ ls →
        (nd.leaf = true ∨ (nd.leaf = false ∧
          ∃ c cnd, vlast = Slot.child c ∧ c ≠ ls ∧ c ≠ i ∧ getN t c = some cnd)) →
        (lnd.leaf = true → vlast = Slot.pay [klast]) →
        ∃ t2, right_rotate t ls = .ok (t2, nd.parent, m0, m1) ∧
          t2.nodes.length = t.nodes.length ∧
          (getN t2 i).map Node.keys = some ((if lnd.leaf then m1 else m0) :: nd.keys) ∧
          (getN t2 i).map Node.values = some (vlast :: nd.values) ∧
          (getN t2 i).map Node.parent = some nd.parent ∧
          (getN t2 ls).map Node.keys = some kinit ∧
          (getN t2 ls).map Node.values = some vinit ∧
          (lnd.leaf = true → m1 = klast))) ∧
    (∀ (pnd : Node) (s0 : Slot) (m0 m1 : Int) (pk0 : Int) (pv0 : Slot),
      ¬ ceilHalf t.order < lnd.keys.length →
      ¬ t.order < nd.keys.length + lnd.keys.length →
      nd.values[0]? = some s0 →
      search_min_key_in_subtree t s0 = .ok m0 →
      (idx = 0 → ∃ nx xnd xs0, nd.next = some nx ∧ getN t nx = some xnd ∧
        xnd.values[0]? = some xs0 ∧ search_min_key_in_subtree t xs0 = .ok m1) →
      (idx ≠ 0 → m1 = m0) →
      getN t pr = some pnd →
      ls ≠ i → pr ≠ i → pr ≠ ls →
      pnd.keys[if idx = 0 then idx else idx - 1]? = some pk0 →
      pnd.values[idx]? = some pv0 →
      (∀ nx, nd.next = some nx → nx ≠ ls ∧ nx ≠ pr ∧ nx ≠ i ∧ (getN t nx).isSome) →
      (nd.leaf = true ∨ (nd.leaf = false ∧
        ∀ s ∈ lnd.values ++ nd.values, ∃ c, s = Slot.child c ∧ (getN t c).isSome ∧
          c ≠ i ∧ c ≠ ls ∧ c ≠ pr ∧ ∀ nx, nd.next = some nx → c ≠ nx)) →
      ∃ t2, left_redistribute t i idx = .ok (t2, nd.parent, m0, m1) ∧
        t2.nodes.length = t.nodes.length ∧
        (getN t2 ls).map Node.keys =
          some (lnd.keys ++ (if nd.leaf then nd.keys else m0 :: nd.keys)) ∧
        (getN t2 ls).map Node.values = some (lnd.values ++ nd.values) ∧
        (getN t2 ls).map Node.next = some nd.next ∧
        (getN t2 pr).map Node.keys =
          some (pnd.keys.take (if idx = 0 then idx else idx - 1) ++
            pnd.keys.drop ((if idx = 0 then idx else idx - 1) + 1)) ∧
        (getN t2 pr).map Node.values =
          some (pnd.values.take idx ++ pnd.values.drop (idx + 1)) ∧
        (∀ nx, nd.next = some nx → (getN t2 nx).map Node.prev = some (some ls)) ∧
        (getN t2 i).map Node.parent = some nd.parent) ∧
    (∀ (path pinit : List Nat) (fuel : Nat) (t2 t3 : BPlusTree)
       (base : Option Nat) (m0 m1 : Int) (nd2 : Node),
      path = pinit ++ [idx] →
      left_redistribute t i idx = .ok (t2, base, m0, m1) →
      update_parents t2 base m0 m1 (t2.nodes.length + 1) = .ok t3 →
      getN t3 i = some nd2 →
      deleteRepair t (some i) path (fuel + 1) = deleteRepair t3 nd2.parent pinit fuel) ∧
    (∀ (u : BPlusTree) (j : Nat) (q : List Nat) (f : Nat) (gnd : Node),
      getN u j = some gnd →
      (gnd.parent.isSome && is_underflow gnd) = false →
      deleteRepair u (some j) q (f + 1) = .ok u) := by
  refine ⟨?_, ?_, ?_, ?_⟩
  · intro hcap
    have hg : decide (ceilHalf t.order < lnd.keys.length) = true := decide_eq_true hcap
    constructor
    · simp only [left_redistribute, need, bind, Except.bind, pure, Except.pure,
        hnd, hprev, hlnd, hg, if_true]
    · intro s0 srest vinit vlast kinit klast m0 m1 hlnext hvals hlvals hlkeys hm0 hm1
        hils hcase hpay
      obtain ⟨t2, hrr, hlen, hik, hiv, hip, hlk, hlv, _⟩ :=
        right_rotate_spec t ls i lnd nd s0 srest vinit vlast kinit klast m0 m1
          hlnd hlnext hnd hvals hlvals hlkeys hm0 hm1 hils hcase
      refine ⟨t2, hrr, hlen, hik, hiv, hip, hlk, hlv, ?_⟩
      intro hl
      have h := hm1
      rw [hpay hl] at h
      simp only [search_min_key_in_subtree, need, List.getElem?_cons_zero] at h
      exact ((Except.ok.injEq _ _).mp h).symm
  · intro pnd s0 m0 m1 pk0 pv0 hnob hsum hs0 hm0 hnm0 hnm1 hpnd hlsi hpri hprls
      hkidx hvidx hnx hrep
    exact left_redistribute_merge_spec t i ls pr idx nd lnd pnd s0 m0 m1
      hnd hprev hlnd hnob hsum hs0 hm0 hnm0 hnm1 hpar hpnd hlsi hpri hprls
      pk0 pv0 hkidx hvidx hnx hrep
  · intro path pinit fuel t2 t3 base m0 m1 nd2 hpath hlr hup hg3
    have hg : (nd.parent.isSome && is_underflow nd) = true := by
      rw [hpar, hund]; rfl
    simp only [deleteRepair, hnd, hg, if_true, hpath, List.getLast?_concat,
      List.dropLast_concat, hlr, hup, hg3]
  · intro u j q f gnd hg hguard
    simp only [deleteRepair, hg, hguard, Bool.false_eq_true, if_false]

/-- C8 counterexample: in the order-2 tree c8state the internal node 2
overflows with keys 6, 8, 10 and its left sibling 1 (keys 2) has spare
capacity.  The claim says the leftmost key of node 2 (the key 6) moves into
the sibling; the run shows the sibling ends with keys 2, 4 (4 is the
minimum key of the moved subtree), 6 is absent from it, and 6 becomes the
new separator in the root instead. -/
theorem c8_counterexample :
    (getN c8state 2).map Node.keys = some [6, 8, 10] ∧
    (getN c8state 1).map Node.keys = some [2] ∧
    ((insertRepair c8state (some 2) [] 1).toOption.map fun u =>
      ((getN u 1).map Node.keys, (getN u 2).map Node.keys, (getN u 0).map Node.keys)) =
      some (some [2, 4], some [8, 10], some [6]) ∧
    ((insertRepair c8state (some 2) [] 1).toOption.map fun u =>
      (getN u 1).map fun n => n.keys.contains 6) = some (some false) :=
  ⟨rfl, rfl, rfl, rfl⟩

/-- C9 counterexample: in the order-4 tree c9state the internal node 2
underflows with keys 50 and its left sibling 1 holds keys 10, 20, 30, above
minimum occupancy.  The claim says the rightmost key of the sibling (30) is
borrowed into the current node; the run shows node 2 ends with keys 40, 50
(40 is the old minimum of its own subtree), 30 is absent from it, and 30
becomes the new separator in the root instead. -/
theorem c9_counterexample :
    (getN c9state 1).map Node.keys = some [10, 20, 30] ∧
    (getN c9state 2).map Node.keys = some [50] ∧
    ((deleteRepair c9state (some 2) [1] 9).toOption.map fun u =>
      ((getN u 2).map Node.keys, (getN u 1).map Node.keys, (getN u 0).map Node.keys)) =
      some (some [40, 50], some [10, 20], some [30]) ∧
    ((deleteRepair c9state (some 2) [1] 9).toOption.map fun u =>
      (getN u 2).map fun n => n.keys.contains 30) = some (some false) :=
  ⟨rfl, rfl, rfl, rfl⟩

/-- Witness for the C8 theorem: both hypotheses hold at the concrete
overflowing node 2 of c8state. -/
theorem c8_overflow_rotate_spec_witness :
    getN c8state 2 = some c8nd2 ∧ is_overflow c8nd2 = true ∧
    ((∀ p pnd s0 s1 srest k0 krest m0 m1,
      c8nd2.prev = some p → getN c8state p = some pnd → pnd.keys.length < c8state.order →
      c8nd2.values = s0 :: s1 :: srest → c8nd2.keys = k0 :: krest →
      search_min_key_in_subtree c8state s0 = .ok m0 →
      search_min_key_in_subtree c8state s1 = .ok m1 →
      p ≠ 2 →
      (pnd.leaf = true ∨
        (pnd.leaf = false ∧ ∃ c cnd, s0 = Slot.child c ∧ c ≠ 2 ∧ c ≠ p ∧ getN c8state c = some cnd)) →
      (c8nd2.leaf = true → s0 = Slot.pay [k0]) →
      ∃ t2,
        insertRepair c8state (some 2) [] (0 + 1) =
          update_parents t2 c8nd2.parent m0 m1 (t2.nodes.length + 1) ∧
        t2.nodes.length = c8state.nodes.length ∧
        (getN t2 p).map Node.keys = some (pnd.keys ++ [m0]) ∧
        (getN t2 p).map Node.values = some (pnd.values ++ [s0]) ∧
        (getN t2 2).map Node.keys = some krest ∧
        (getN t2 2).map Node.values = some (s1 :: srest) ∧
        (c8nd2.leaf = true → m0 = k0)) ∧
    (∀ q qnd qv0 qvrest vinit vlast kinit klast m0 m1,
      (c8nd2.prev = none ∨
        ∃ p pnd, c8nd2.prev = some p ∧ getN c8state p = some pnd ∧ ¬ pnd.keys.length < c8state.order) →
      c8nd2.next = some q → getN c8state q = some qnd → qnd.keys.length < c8state.order →
      qnd.values = qv0 :: qvrest →
      c8nd2.values = vinit ++ [vlast] → c8nd2.keys = kinit ++ [klast] →
      search_min_key_in_subtree c8state qv0 = .ok m0 →
      search_min_key_in_subtree c8state vlast = .ok m1 →
      q ≠ 2 →
      (qnd.leaf = true ∨
        (qnd.leaf = false ∧ ∃ c cnd, vlast = Slot.child c ∧ c ≠ 2 ∧ c ≠ q ∧ getN c8state c = some cnd)) →
      (c8nd2.leaf = true → vlast = Slot.pay [klast]) →
      ∃ t2,
        insertRepair c8state (some 2) [] (0 + 1) =
          update_parents t2 qnd.parent m0 m1 (t2.nodes.length + 1) ∧
        t2.nodes.length = c8state.nodes.length ∧
        (getN t2 q).map Node.keys = some ((if c8nd2.leaf then m1 else m0) :: qnd.keys) ∧
        (getN t2 q).map Node.values = some (vlast :: qnd.values) ∧
        (getN t2 2).map Node.keys = some kinit ∧
        (getN t2 2).map Node.values = some vinit ∧
        (c8nd2.leaf = true → m1 = klast))) :=
  ⟨rfl, rfl, c8_overflow_rotate_spec c8state 2 c8nd2 [] 0 rfl rfl⟩

/-- Witness for the C9 theorem: all five hypotheses hold at the concrete
underflowing node 2 of c9state. -/
theorem c9_underflow_redistribute_spec_witness :
    getN c9state 2 = some c9nd2 ∧ c9nd2.parent = some 0 ∧
    is_underflow c9nd2 = true ∧ c9nd2.prev = some 1 ∧ getN c9state 1 = some c9nd1 ∧
    ((ceilHalf c9state.order < c9nd1.keys.length →
      left_redistribute c9state 2 1 = right_rotate c9state 1 ∧
      (∀ (s0 : Slot) (srest vinit : List Slot) (vlast : Slot)
         (kinit : List Int) (klast : Int) (m0 m1 : Int),
        c9nd1.next = some 2 →
        c9nd2.values = s0 :: srest →
        c9nd1.values = vinit ++ [vlast] →
        c9nd1.keys = kinit ++ [klast] →
        search_min_key_in_subtree c9state s0 = .ok m0 →
        search_min_key_in_subtree c9state vlast = .ok m1 →
        2 ≠ 1 →
        (c9nd2.leaf = true ∨ (c9nd2.leaf = false ∧
          ∃ c cnd, vlast = Slot.child c ∧ c ≠ 1 ∧ c ≠ 2 ∧ getN c9state c = some cnd)) →
        (c9nd1.leaf = true → vlast = Slot.pay [klast]) →
        ∃ t2, right_rotate c9state 1 = .ok (t2, c9nd2.parent, m0, m1) ∧
          t2.nodes.length = c9state.nodes.length ∧
          (getN t2 2).map Node.keys = some ((if c9nd1.leaf then m1 else m0) :: c9nd2.keys) ∧
          (getN t2 2).map Node.values = some (vlast :: c9nd2.values) ∧
          (getN t2 2).map Node.parent = some c9nd2.parent ∧
          (getN t2 1).map Node.keys = some kinit ∧
          (getN t2 1).map Node.values = some vinit ∧
          (c9nd1.leaf = true → m1 = klast))) ∧
    (∀ (pnd : Node) (s0 : Slot) (m0 m1 : Int) (pk0 : Int) (pv0 : Slot),
      ¬ ceilHalf c9state.order < c9nd1.keys.length →
      ¬ c9state.order < c9nd2.keys.length + c9nd1.keys.length →
      c9nd2.values[0]? = some s0 →
      search_min_key_in_subtree c9state s0 = .ok m0 →
      (1 = 0 → ∃ nx xnd xs0, c9nd2.next = some nx ∧ getN c9state nx = some xnd ∧
        xnd.values[0]? = some xs0 ∧ search_min_key_in_subtree c9state xs0 = .ok m1) →
      (1 ≠ 0 → m1 = m0) →
      getN c9state 0 = some pnd →
      1 ≠ 2 → 0 ≠ 2 → 0 ≠ 1 →
      pnd.keys[if 1 = 0 then 1 else 1 - 1]? = some pk0 →
      pnd.values[1]? = some pv0 →
      (∀ nx, c9nd2.next = some nx → nx ≠ 1 ∧ nx ≠ 0 ∧ nx ≠ 2 ∧ (getN c9state nx).isSome) →
      (c9nd2.leaf = true ∨ (c9nd2.leaf = false ∧
        ∀ s ∈ c9nd1.values ++ c9nd2.values, ∃ c, s = Slot.child c ∧ (getN c9state c).isSome ∧
          c ≠ 2 ∧ c ≠ 1 ∧ c ≠ 0 ∧ ∀ nx, c9nd2.next = some nx → c ≠ nx)) →
      ∃ t2, left_redistribute c9state 2 1 = .ok (t2, c9nd2.parent, m0, m1) ∧
        t2.nodes.length = c9state.nodes.length ∧
        (getN t2 1).map Node.keys =
          some (c9nd1.keys ++ (if c9nd2.leaf then c9nd2.keys else m0 :: c9nd2.keys)) ∧
        (getN t2 1).map Node.values = some (c9nd1.values ++ c9nd2.values) ∧
        (getN t2 1).map Node.next = some c9nd2.next ∧
        (getN t2 0).map Node.keys =
          some (pnd.keys.take (if 1 = 0 then 1 else 1 - 1) ++
            pnd.keys.drop ((if 1 = 0 then 1 else 1 - 1) + 1)) ∧
        (getN t2 0).map Node.values =
          some (pnd.values.take 1 ++ pnd.values.drop (1 + 1)) ∧
        (∀ nx, c9nd2.next = some nx → (getN t2 nx).map Node.prev = some (some 1)) ∧
        (getN t2 2).map Node.parent = some c9nd2.parent) ∧
    (∀ (path pinit : List Nat) (fuel : Nat) (t2 t3 : BPlusTree)
       (base : Option Nat) (m0 m1 : Int) (nd2 : Node),
      path = pinit ++ [1] →
      left_redistribute c9state 2 1 = .ok (t2, base, m0, m1) →
      update_parents t2 base m0 m1 (t2.nodes.length + 1) = .ok t3 →
      getN t3 2 = some nd2 →
      deleteRepair c9state (some 2) path (fuel + 1) = deleteRepair t3 nd2.parent pinit fuel) ∧
    (∀ (u : BPlusTree) (j : Nat) (q : List Nat) (f : Nat) (gnd : Node),
      getN u j = some gnd →
      (gnd.parent.isSome && is_underflow gnd) = false →
      deleteRepair u (some j) q (f + 1) = .ok u)) :=
  ⟨rfl, rfl, rfl, rfl, rfl,
    c9_underflow_redistribute_spec c9state 2 1 0 1 c9nd2 c9nd1 rfl rfl rfl rfl rfl⟩

end BPlus
